import Mathlib

/-!
# Mapty: workout model and session controller

A shallow embedding of `src/script.js` (classes `Workout`, `Running`, `Cycling`, `App`).

* JavaScript Numbers are IEEE-754 binary64 values, embedded as `JSNum`: the finite values are
  carried by the rational number they denote, and every arithmetic operation rounds the exact
  result to the nearest binary64 value, ties to even (`roundPos`).
* JavaScript values are embedded as `JSVal`; objects are ordered property lists.
* Results of host built-ins that depend on the environment (the clock, the local calendar,
  the text-to-number reading of a form field) are inputs of the model.
* A handler is a function from the state before an event to an `Outcome`: the state it leaves
  and whether it returned or threw. The state holds the private fields of `App`, the parts of
  the page the handlers touch, the Leaflet map and the `workouts` key of `localStorage`.
* Text is abstracted where the program only passes it on: a stored JSON text is identified with
  the value it parses to, a list entry and a popup with the values interpolated into them.
* The Leaflet map is embedded as far as the handlers drive it (section "The map library"):
  how it reads coordinates, what a marker without a position does to it, and when a move of the
  view is carried out as a reset. How far the user has moved the map is an input, held in the
  state.
* Not represented: `console.log`, `e.preventDefault()`, the tile layer and the storage quota.
-/

namespace Mapty

/-! ## Numbers -/

/-- A JavaScript Number. `fin q` is the finite value `q` (with `fin 0` being `+0`), `negZero`
is `-0`. -/
inductive JSNum
  | nan
  | posInf
  | negInf
  | negZero
  | fin (q : ℚ)
  deriving DecidableEq

namespace JSNum

/-- The value `2 ^ e` as a rational. -/
def pow2 (e : Int) : ℚ :=
  if 0 ≤ e then ((2 ^ e.toNat : Nat) : ℚ) else 1 / ((2 ^ (-e).toNat : Nat) : ℚ)

/-- Number of halvings that bring `n` below `2`, with `fuel` bounding the recursion. -/
def log2Fuel : Nat → Nat → Nat
  | 0, _ => 0
  | fuel + 1, n => if n < 2 then 0 else log2Fuel fuel (n / 2) + 1

/-- The integer `⌊log₂ n⌋` of a positive natural. -/
def log2 (n : Nat) : Nat := log2Fuel n n

/-- The integer `⌊log₂ (a / b)⌋` for positive naturals `a`, `b`. -/
def floorLog2 (a b : Nat) : Int :=
  let k : Int := (log2 a : Int) - (log2 b : Int)
  if 0 ≤ k then
    (if b * 2 ^ k.toNat ≤ a then k else k - 1)
  else
    (if b ≤ a * 2 ^ (-k).toNat then k else k - 1)

/-- The integer nearest to a non-negative rational, a tie going to the even neighbour. -/
def roundHalfEven (n : ℚ) : Int :=
  let f : Int := n.floor
  let r := n - f
  if r < 1 / 2 then f
  else if 1 / 2 < r then f + 1
  else if f % 2 = 0 then f else f + 1

/-- Round a positive rational to the nearest binary64 magnitude, ties to even: 53 significant
bits, least exponent `-1022` (below it the spacing stays `2 ^ -1074`, the subnormal range).
`none` is overflow to infinity; `some 0` is underflow to zero. -/
def roundPos (q : ℚ) : Option ℚ :=
  let e := max (floorLog2 q.num.toNat q.den) (-1022)
  let ulp := pow2 (e - 52)
  let v := (roundHalfEven (q / ulp) : ℚ) * ulp
  if pow2 1024 ≤ v then none else some v

/-- Sign bit of a number (`true` for negative values, `-0` and `-Infinity`). -/
def neg : JSNum → Bool
  | negInf => true
  | negZero => true
  | fin q => decide (q < 0)
  | _ => false

/-- Infinity with the given sign bit. -/
def inf (s : Bool) : JSNum := if s then negInf else posInf

/-- Zero with the given sign bit. -/
def zero (s : Bool) : JSNum := if s then negZero else fin 0

/-- Magnitude of a finite number. -/
def mag : JSNum → ℚ
  | fin q => |q|
  | _ => 0

def isInf : JSNum → Bool
  | posInf => true
  | negInf => true
  | _ => false

def isZero : JSNum → Bool
  | negZero => true
  | fin q => decide (q = 0)
  | _ => false

/-- The binary64 value with sign bit `s` nearest to the positive rational `q`. -/
def ofMag (s : Bool) (q : ℚ) : JSNum :=
  match roundPos q with
  | none => inf s
  | some v => if v = 0 then zero s else if s then fin (-v) else fin v

/-- The operator `a / b` on Numbers. -/
def div (a b : JSNum) : JSNum :=
  match a, b with
  | nan, _ => nan
  | _, nan => nan
  | a, b =>
    let s := xor a.neg b.neg
    if a.isInf then (if b.isInf then nan else inf s)
    else if b.isInf then zero s
    else if b.isZero then (if a.isZero then nan else inf s)
    else if a.isZero then zero s
    else ofMag s (a.mag / b.mag)

/-- The operator `a * b` on Numbers. -/
def mul (a b : JSNum) : JSNum :=
  match a, b with
  | nan, _ => nan
  | _, nan => nan
  | a, b =>
    let s := xor a.neg b.neg
    if a.isInf then (if b.isZero then nan else inf s)
    else if b.isInf then (if a.isZero then nan else inf s)
    else if a.isZero || b.isZero then zero s
    else ofMag s (a.mag * b.mag)

/-- The built-in `Number.isFinite`. -/
def isFinite : JSNum → Bool
  | negZero => true
  | fin _ => true
  | _ => false

/-- The comparison `inp > 0`. -/
def gtZero : JSNum → Bool
  | posInf => true
  | fin q => decide (0 < q)
  | _ => false

end JSNum

/-! ## Values -/

/-- A `Date` object as the program observes it: its time value in milliseconds since the epoch,
and the results of `getMonth()`, `getDate()` (local calendar of the host) and `toJSON()`. -/
structure JSDate where
  time : Nat
  month : Nat
  day : Nat
  iso : String
  deriving DecidableEq

/-- JavaScript values. An object is the ordered list of its own properties; prototypes are not
represented (the program never calls a method of a stored workout). -/
inductive JSVal
  | undefined
  | null
  | bool (b : Bool)
  | num (n : JSNum)
  | str (s : String)
  | date (d : JSDate)
  | arr (xs : List JSVal)
  | obj (props : List (String × JSVal))

namespace JSVal

/-- Value of the own property `k` of an object value; `undefined` when there is none. Used for
property names that no built-in prototype defines (`id`, `coords`, `type`, ...). -/
def get (v : JSVal) (k : String) : JSVal :=
  match v with
  | obj props => (props.lookup k).getD undefined
  | _ => undefined

/-- The comparison `v === s` against a string. -/
def isStr (v : JSVal) (s : String) : Bool :=
  match v with
  | str t => decide (t = s)
  | _ => false

/-- The coercion of a value to a boolean (`!data` is its negation). -/
def truthy : JSVal → Bool
  | undefined => false
  | null => false
  | bool b => b
  | num n => !(n.isZero || decide (n = JSNum.nan))
  | str s => decide (s ≠ "")
  | _ => true

end JSVal

/-! ## Workout model -/

inductive WorkoutType
  | running
  | cycling
  deriving DecidableEq

/-- The `type` field of the two classes. -/
def WorkoutType.name : WorkoutType → String
  | running => "running"
  | cycling => "cycling"

/-- The conversion `n + ''` for a non-negative integer Number. -/
def numberToString (n : Nat) : String := Nat.repr n

/-- The method `s.slice(-k)`: the last `k` characters of `s` (all of `s` when it is shorter). -/
def sliceLast (k : Nat) (s : String) : String :=
  String.mk (s.data.drop (s.data.length - k))

/-- The method `s.slice(1)`. -/
def sliceFrom1 (s : String) : String := String.mk (s.data.drop 1)

/-- The expression `s[0].toUpperCase()` for a non-empty string of ASCII letters. -/
def firstUpper (s : String) : String := String.mk ((s.data.take 1).map Char.toUpper)

namespace Workout

/-- Field initialiser `id = (Date.now() + '').slice(-10)`; `now` is the clock reading. -/
def id (now : Nat) : String := sliceLast 10 (numberToString now)

def months : List String :=
  ["January", "February", "March", "April", "May", "June", "July", "August", "September",
    "October", "November", "December"]

/-- Text of `${months[i]}`: an index outside the array reads `undefined`. -/
def monthText (i : Nat) : String := (months[i]?).getD "undefined"

/-- Method `_setDescription`: the string it stores in `this.description`. -/
def _setDescription (type : WorkoutType) (date : JSDate) : String :=
  firstUpper type.name ++ sliceFrom1 type.name ++ " on " ++ monthText date.month ++ " " ++
    numberToString date.day

end Workout

/-- Method `calcPace`: the value it stores in `this.pace`. -/
def Running.calcPace (duration distance : JSNum) : JSNum := duration.div distance

/-- Method `calcSpeed`: the value it stores in `this.speed`. -/
def Cycling.calcSpeed (distance duration : JSNum) : JSNum :=
  distance.div (duration.div (JSNum.fin 60))

/-- The object built by `new Running(coords, distance, duration, cadence)`. `date` is the value of
`new Date()` and `now` the value of `Date.now()` read by the field initialisers. -/
def Running (date : JSDate) (now : Nat) (coords : JSVal) (distance duration cadence : JSNum) :
    JSVal :=
  .obj [("date", .date date), ("id", .str (Workout.id now)), ("coords", coords),
    ("distance", .num distance), ("duration", .num duration), ("type", .str "running"),
    ("cadence", .num cadence), ("pace", .num (Running.calcPace duration distance)),
    ("description", .str (Workout._setDescription .running date))]

/-- The object built by `new Cycling(coords, distance, duration, elevationGain)`. -/
def Cycling (date : JSDate) (now : Nat) (coords : JSVal) (distance duration elevationGain : JSNum) :
    JSVal :=
  .obj [("date", .date date), ("id", .str (Workout.id now)), ("coords", coords),
    ("distance", .num distance), ("duration", .num duration), ("type", .str "cycling"),
    ("elevationGain", .num elevationGain), ("speed", .num (Cycling.calcSpeed distance duration)),
    ("description", .str (Workout._setDescription .cycling date))]


/-! ## Serialisation -/

mutual
/-- The value that `JSON.parse` returns for the text `JSON.stringify` writes for `v`; `none` when
the serialisation of `v` is `undefined`. A `Date` is written through `toJSON()`, a non-finite
number as `null`, `-0` as `0`; in an array `undefined` is written `null`, in an object a
property whose value is `undefined` is left out. -/
def JSVal.serialize : JSVal → Option JSVal
  | .undefined => none
  | .null => some .null
  | .bool b => some (.bool b)
  | .num n => some (if n.isFinite then (if n = .negZero then .num (.fin 0) else .num n) else .null)
  | .str s => some (.str s)
  | .date d => some (.str d.iso)
  | .arr xs => some (.arr (serializeItems xs))
  | .obj props => some (.obj (serializeProps props))
/-- Array elements, in order. -/
def serializeItems : List JSVal → List JSVal
  | [] => []
  | x :: xs => (x.serialize).getD .null :: serializeItems xs
/-- Object properties, in order. -/
def serializeProps : List (String × JSVal) → List (String × JSVal)
  | [] => []
  | (k, v) :: ps =>
    match v.serialize with
    | none => serializeProps ps
    | some j => (k, j) :: serializeProps ps
end

/-- A string held by `localStorage`. Well-formed JSON text is identified with the value that
`JSON.parse` returns for it; any other text is rejected by `JSON.parse`. -/
inductive StoredText
  | json (v : JSVal)
  | malformed (text : String)

/-- The string `localStorage.setItem` stores for `JSON.stringify v` (the text `undefined` when the
result of `JSON.stringify` is `undefined`). -/
def JSON.stringify (v : JSVal) : StoredText :=
  match v.serialize with
  | some j => .json j
  | none => .malformed "undefined"

/-! ## Session controller -/

inductive JSError
  | typeError
  | syntaxError
  | error
  deriving DecidableEq

/-! ### The map library

Leaflet (1.x) as the handlers drive it: `L.marker(c).addTo(map)` with its popup, `map.setView`,
and the `latlng` of a click. -/

/-- The characters that the conversion of a string to a Number strips from both ends. -/
def isStrWhiteSpace (c : Char) : Bool :=
  [0x9, 0xA, 0xB, 0xC, 0xD, 0x20, 0xA0, 0x1680, 0x2000, 0x2001, 0x2002, 0x2003, 0x2004, 0x2005,
    0x2006, 0x2007, 0x2008, 0x2009, 0x200A, 0x2028, 0x2029, 0x202F, 0x205F, 0x3000,
    0xFEFF].contains c.toNat

/-- A non-empty run of decimal digits. -/
def isDigits (cs : List Char) : Bool := !cs.isEmpty && cs.all Char.isDigit

/-- The text after an optional sign. -/
def dropSign : List Char → List Char
  | '+' :: cs => cs
  | '-' :: cs => cs
  | cs => cs

/-- A signed decimal literal: `Infinity`, or digits with an optional fraction, or a fraction
alone, each but `Infinity` with an optional exponent. -/
def isStrDecimalLiteral (cs : List Char) : Bool :=
  let u := dropSign cs
  if u = "Infinity".data then true
  else
    let mant := u.takeWhile (fun c => !(c == 'e' || c == 'E'))
    let expOk :=
      match u.dropWhile (fun c => !(c == 'e' || c == 'E')) with
      | [] => true
      | _ :: ex => isDigits (dropSign ex)
    let ip := mant.takeWhile Char.isDigit
    let mantOk :=
      match mant.dropWhile Char.isDigit with
      | [] => !ip.isEmpty
      | '.' :: fp => fp.all Char.isDigit && (!ip.isEmpty || !fp.isEmpty)
      | _ => false
    mantOk && expOk

/-- An unsigned binary, octal or hexadecimal literal. -/
def isNonDecimalLiteral : List Char → Bool
  | '0' :: x :: ds =>
    !ds.isEmpty &&
      (((x == 'x' || x == 'X') && ds.all (fun c => c.isDigit || ('a' ≤ c && c ≤ 'f') ||
          ('A' ≤ c && c ≤ 'F'))) ||
       ((x == 'o' || x == 'O') && ds.all (fun c => '0' ≤ c && c ≤ '7')) ||
       ((x == 'b' || x == 'B') && ds.all (fun c => c == '0' || c == '1')))
  | _ => false

/-- Whether the conversion of the string `s` to a Number gives `NaN`: it does unless `s`, with
white space stripped from both ends, is empty or a numeric literal. -/
def strIsNaN (s : String) : Bool :=
  let t := ((s.data.dropWhile isStrWhiteSpace).reverse.dropWhile isStrWhiteSpace).reverse
  !(t.isEmpty || isStrDecimalLiteral t || isNonDecimalLiteral t)

mutual
/-- The built-in `isNaN(v)`: whether the conversion of `v` to a Number gives `NaN`. An array is
converted through its `join(',')`, any other object through a text that is no numeric literal;
a `Date` through its time value. -/
def JSVal.isNaN : JSVal → Bool
  | .undefined => true
  | .null => false
  | .bool _ => false
  | .num n => decide (n = JSNum.nan)
  | .str s => strIsNaN s
  | .date _ => false
  | .arr xs => joinIsNaN xs
  | .obj _ => true
/-- Whether the text `xs.join(',')` converts to `NaN`. -/
def joinIsNaN : List JSVal → Bool
  | [] => false
  | [x] => itemIsNaN x
  | _ :: _ :: _ => true
/-- Whether the text of one array item in `join` converts to `NaN`: `null` and `undefined` are
written as the empty text, a boolean as `true` or `false`, a `Date` as a date text. -/
def itemIsNaN : JSVal → Bool
  | .undefined => false
  | .null => false
  | .bool _ => true
  | .num n => decide (n = JSNum.nan)
  | .str s => strIsNaN s
  | .date _ => true
  | .arr xs => joinIsNaN xs
  | .obj _ => true
end

/-- The operator `typeof v === 'object'`. -/
def JSVal.isObjectType : JSVal → Bool
  | .null => true
  | .date _ => true
  | .arr _ => true
  | .obj _ => true
  | _ => false

/-- The operator `k in v` for an object value. -/
def JSVal.hasKey (v : JSVal) (k : String) : Bool :=
  match v with
  | .obj props => (props.lookup k).isSome
  | _ => false

namespace Leaflet

/-- What Leaflet makes of a coordinate argument: a position, no position (`null` or `undefined`),
or an `Error` thrown by the `LatLng` constructor. -/
inductive Position
  | usable
  | missing
  | invalid
  deriving DecidableEq

/-- The constructor `new LatLng(lat, lng)`, which throws when `isNaN(lat) || isNaN(lng)`. -/
def newLatLng (lat lng : JSVal) : Position :=
  if lat.isNaN || lng.isNaN then .invalid else .usable

/-- The function `toLatLng(a)`: an array of two or three items whose first is not of type
`object` is passed to the constructor, as is an object with a `lat` key; `undefined` and `null`
are returned as they are; anything else gives `null`. -/
def toLatLng (a : JSVal) : Position :=
  match a with
  | .undefined => .missing
  | .null => .missing
  | .arr xs =>
    match xs with
    | [x, y] => if x.isObjectType then .missing else newLatLng x y
    | [x, y, _] => if x.isObjectType then .missing else newLatLng x y
    | _ => .missing
  | .obj props =>
    if (JSVal.obj props).hasKey "lat" then
      newLatLng ((JSVal.obj props).get "lat")
        (if (JSVal.obj props).hasKey "lng" then (JSVal.obj props).get "lng"
          else (JSVal.obj props).get "lon")
    else .missing
  | _ => .missing

end Leaflet

/-- The `latlng` of a Leaflet map click event, a `LatLng` object: its constructor has checked
that neither coordinate is `NaN`. -/
structure LatLng where
  lat : JSNum
  lng : JSNum
  latNumber : lat ≠ JSNum.nan := by decide
  lngNumber : lng ≠ JSNum.nan := by decide

/-- A marker added to the map, with the values interpolated into its popup. -/
structure Marker where
  coords : JSVal
  type : JSVal
  runningIcon : Bool
  description : JSVal

/-- The Leaflet map as the program drives it. `center` and `zoom` are the view the program last
asked for, `markers` the markers shown with their popups. `broken` records that a marker without
a position is among the layers: Leaflet has registered it, and its handler for a reset of the
view throws a `TypeError`. The last two fields are inputs from the user's moving of the map:
`autoPanResets` says that bringing a popup opened at the pending location into view takes a pan
wider than the map, which Leaflet carries out as a reset of the view; `setViewResets` says that
Leaflet carries out the next `setView` as a reset of the view and not as an animation (the
zoom differs from the requested one by more than the animation threshold). -/
structure LeafletMap where
  center : JSVal
  zoom : Nat
  markers : List Marker
  broken : Bool
  autoPanResets : Bool
  setViewResets : Bool

/-- The `<li>` markup inserted by `_renderWorkout`, given by the values interpolated into it;
`details` holds the number formatted by `toFixed(1)` and the cadence or elevation value. -/
structure ListEntry where
  type : JSVal
  id : JSVal
  description : JSVal
  distance : JSVal
  duration : JSVal
  details : Option (JSNum × JSVal)

/-- A form field: its text and the Number that unary `+` reads from it. -/
structure FormInput where
  value : String
  number : JSNum

/-- The cleared field (`value = ''`, which reads as `+0`). -/
def FormInput.empty : FormInput := ⟨"", .fin 0⟩

/-- The controller's private fields together with the page and the storage it acts on. -/
structure State where
  map : Option LeafletMap
  mapEvent : Option LatLng
  mapZoomLevel : Nat
  workouts : JSVal
  formHidden : Bool
  formDisplay : String
  distanceFocused : Bool
  inputType : String
  inputDistance : FormInput
  inputDuration : FormInput
  inputCadence : FormInput
  inputElevation : FormInput
  cadenceRowHidden : Bool
  elevationRowHidden : Bool
  list : List ListEntry
  alerts : List String
  timers : Nat
  storage : Option StoredText

/-- Result of running a handler: it returns, or throws after the effects made so far. -/
inductive Outcome
  | done (s : State)
  | threw (e : JSError) (s : State)

/-- The state a handler leaves behind. -/
def Outcome.state : Outcome → State
  | done s => s
  | threw _ s => s

/-- Sequencing: the next statement runs only if the previous one returned. -/
def Outcome.andThen (o : Outcome) (f : State → Outcome) : Outcome :=
  match o with
  | done s => f s
  | threw e s => .threw e s

/-- Property read `v.k`, which throws on `undefined` and `null`. -/
def JSVal.prop (v : JSVal) (k : String) : Except JSError JSVal :=
  match v with
  | .undefined => .error .typeError
  | .null => .error .typeError
  | v => .ok (v.get k)

namespace App

def alertText : String := "Please Fill in all inputs and Inputs have to be positive numbers"

/-- Field initialisers of `App`, before the constructor body, on a freshly loaded page: the form
hidden and empty with type `running` selected, the elevation row hidden, no list entry. -/
def init (storage : Option StoredText) : State :=
  { map := none, mapEvent := none, mapZoomLevel := 13, workouts := .arr [],
    formHidden := true, formDisplay := "", distanceFocused := false,
    inputType := "running", inputDistance := .empty, inputDuration := .empty,
    inputCadence := .empty, inputElevation := .empty,
    cadenceRowHidden := false, elevationRowHidden := true,
    list := [], alerts := [], timers := 0, storage := storage }

/-- The failure callback passed to `getCurrentPosition` in `_getPosition`. -/
def positionFailed (s : State) : State :=
  { s with alerts := s.alerts ++ ["could not get your position"] }

/-- Method `_toggleElevationField`. -/
def _toggleElevationField (s : State) : State :=
  { s with elevationRowHidden := !s.elevationRowHidden,
           cadenceRowHidden := !s.cadenceRowHidden }

/-- The callback that `_hideForm` schedules with `setTimeout`. -/
def restoreDisplay (s : State) : State :=
  { s with formDisplay := "grid", timers := s.timers - 1 }

/-- Method `_showForm`. -/
def _showForm (s : State) (mapE : LatLng) : State :=
  { s with mapEvent := some mapE, formHidden := false, distanceFocused := true }

/-- Method `_hideForm`; the `setTimeout` callback is counted in `timers`. -/
def _hideForm (s : State) : State :=
  { s with inputDistance := .empty, inputDuration := .empty, inputCadence := .empty,
           inputElevation := .empty, formDisplay := "none", formHidden := true,
           timers := s.timers + 1 }

/-- The user pans or zooms the map: the inputs of the map change. -/
def moveMap (s : State) (autoPanResets setViewResets : Bool) : State :=
  match s.map with
  | none => s
  | some m =>
    { s with map := some { m with autoPanResets := autoPanResets,
                                  setViewResets := setViewResets } }

/-- Method `_renderWorkOutMarker`. `L.marker` throws for coordinates the `LatLng` constructor
rejects; `addTo` throws when there is no map, and for a marker without a position after having
registered it; `openPopup` pans the popup into view, and when that resets the view of a map
with such a marker it throws, the new marker being in place. -/
def _renderWorkOutMarker (s : State) (workout : JSVal) : Outcome :=
  match workout.prop "coords" with
  | .error e => .threw e s
  | .ok coords =>
    match Leaflet.toLatLng coords with
    | .invalid => .threw .error s
    | .missing =>
      match s.map with
      | none => .threw .typeError s
      | some m => .threw .typeError { s with map := some { m with broken := true } }
    | .usable =>
      match s.map with
      | none => .threw .typeError s
      | some m =>
        if m.broken && m.autoPanResets then
          .threw .typeError { s with map := some { m with markers := m.markers ++
            [⟨coords, workout.get "type", (workout.get "type").isStr "running",
              workout.get "description"⟩] } }
        else
          .done { s with map := some { m with markers := m.markers ++
            [⟨coords, workout.get "type", (workout.get "type").isStr "running",
              workout.get "description"⟩] } }

/-- The call `x.toFixed(1)`: only a Number has the method. -/
def toFixedArg (x : JSVal) : Except JSError JSNum :=
  match x with
  | .num n => .ok n
  | _ => .error .typeError

/-- Method `_renderWorkout`. -/
def _renderWorkout (s : State) (workout : JSVal) : Outcome :=
  match workout.prop "type" with
  | .error e => .threw e s
  | .ok type =>
    let entry (details : Option (JSNum × JSVal)) : ListEntry :=
      ⟨type, workout.get "id", workout.get "description", workout.get "distance",
        workout.get "duration", details⟩
    if type.isStr "running" then
      match toFixedArg (workout.get "pace") with
      | .error e => .threw e s
      | .ok pace => .done { s with list := entry (some (pace, workout.get "cadence")) :: s.list }
    else if type.isStr "cycling" then
      match toFixedArg (workout.get "speed") with
      | .error e => .threw e s
      | .ok speed =>
        .done { s with list := entry (some (speed, workout.get "elevationGain")) :: s.list }
    else .done { s with list := entry none :: s.list }

/-- Method `_setLocalStorage`. -/
def _setLocalStorage (s : State) : State :=
  { s with storage := some (JSON.stringify s.workouts) }

/-- The loop `xs.forEach(work => f(work))`, which stops at the first exception. -/
def forEach (f : State → JSVal → Outcome) : State → List JSVal → Outcome
  | s, [] => .done s
  | s, x :: xs =>
    match f s x with
    | .done s1 => forEach f s1 xs
    | .threw e s1 => .threw e s1

/-- Method `_getLocalStorage`. -/
def _getLocalStorage (s : State) : Outcome :=
  match s.storage with
  | none => .done s
  | some (.malformed _) => .threw .syntaxError s
  | some (.json data) =>
    if !data.truthy then .done s
    else
      match data with
      | .arr xs => forEach _renderWorkout { s with workouts := data } xs
      | _ => .threw .typeError { s with workouts := data }

/-- The constructor of `App`, up to the registration of the event handlers. -/
def new (storage : Option StoredText) : Outcome := _getLocalStorage (init storage)

/-- Method `_loadMap`, called with the position that geolocation resolved. The first `setView`
throws for a `NaN` coordinate, before `#map` is assigned. -/
def _loadMap (s : State) (latitude longitude : JSNum) : Outcome :=
  match Leaflet.toLatLng (.arr [.num latitude, .num longitude]) with
  | .usable =>
    let s1 := { s with map := some ⟨.arr [.num latitude, .num longitude], s.mapZoomLevel, [],
      false, false, false⟩ }
    match s1.workouts with
    | .arr xs => forEach _renderWorkOutMarker s1 xs
    | _ => .threw .typeError s1
  | _ => .threw .error s

/-- The helper `validInputs`. -/
def validInputs (inputs : List JSNum) : Bool := inputs.all JSNum.isFinite

/-- The helper `allPositive`. -/
def allPositive (inputs : List JSNum) : Bool := inputs.all JSNum.gtZero

/-- The statements of `_newWorkout` after the workout has been built. -/
def addWorkout (s : State) (workout : JSVal) : Outcome :=
  match s.workouts with
  | .arr xs =>
    ((_renderWorkOutMarker { s with workouts := .arr (xs ++ [workout]) } workout).andThen
      (fun s1 => _renderWorkout s1 workout)).andThen
      (fun s2 => .done (_setLocalStorage (_hideForm s2)))
  | _ => .threw .typeError s

/-- Method `_newWorkout`; `date` and `now` are the clock readings taken by the constructor of the
new workout. -/
def _newWorkout (s : State) (date : JSDate) (now : Nat) : Outcome :=
  let type := s.inputType
  let distance := s.inputDistance.number
  let duration := s.inputDuration.number
  match s.mapEvent with
  | none => .threw .typeError s
  | some ev =>
    let coords := JSVal.arr [.num ev.lat, .num ev.lng]
    if type = "running" then
      let cadence := s.inputCadence.number
      if !validInputs [distance, duration, cadence] || !allPositive [distance, duration, cadence]
      then .done { s with alerts := s.alerts ++ [alertText] }
      else addWorkout s (Running date now coords distance duration cadence)
    else if type = "cycling" then
      let elevGain := s.inputElevation.number
      if !validInputs [distance, duration, elevGain] || !allPositive [distance, duration]
      then .done { s with alerts := s.alerts ++ [alertText] }
      else addWorkout s (Cycling date now coords distance duration elevGain)
    else addWorkout s .undefined

/-- The callback of `find`: `work.id === id`. -/
def idMatches (id : String) (work : JSVal) : Except JSError Bool :=
  match work.prop "id" with
  | .error e => .error e
  | .ok v => .ok (v.isStr id)

/-- The call `xs.find(work => work.id === id)`; `undefined` when no element matches. -/
def find (id : String) : List JSVal → Except JSError JSVal
  | [] => .ok .undefined
  | work :: rest =>
    match idMatches id work with
    | .error e => .error e
    | .ok true => .ok work
    | .ok false => find id rest

/-- Method `_moveToPopup`; `workoutEl` is the `data-id` of the list entry that encloses the click
target, `none` when the click is outside every entry. `setView` throws for coordinates without
a position, before it has changed the view when it animates and after having recorded the
requested view when it resets; when it is carried out as a reset of the view of a map that holds
a marker without a position, it throws after the view has changed. -/
def _moveToPopup (s : State) (workoutEl : Option String) : Outcome :=
  match workoutEl with
  | none => .done s
  | some id =>
    match s.workouts with
    | .arr xs =>
      match find id xs with
      | .error e => .threw e s
      | .ok workout =>
        match s.map with
        | none => .threw .typeError s
        | some m =>
          match workout.prop "coords" with
          | .error e => .threw e s
          | .ok coords =>
            match Leaflet.toLatLng coords with
            | .invalid => .threw .error s
            | .missing =>
              if m.setViewResets then
                .threw .typeError
                  { s with map := some { m with center := coords, zoom := s.mapZoomLevel } }
              else .threw .typeError s
            | .usable =>
              if m.broken && m.setViewResets then
                .threw .typeError
                  { s with map := some { m with center := coords, zoom := s.mapZoomLevel } }
              else
                .done { s with map := some { m with center := coords, zoom := s.mapZoomLevel } }
    | _ => .threw .typeError s

end App

/-! ## Sessions -/

/-- The validation contract of the specification: distance and duration finite and strictly
positive; for running the cadence as well; for cycling the elevation gain finite. -/
def App.validForm (type : String) (distance duration cadence elevation : JSNum) : Prop :=
  (distance.isFinite = true ∧ distance.gtZero = true) ∧
  (duration.isFinite = true ∧ duration.gtZero = true) ∧
  ((type = "running" ∧ cadence.isFinite = true ∧ cadence.gtZero = true) ∨
   (type = "cycling" ∧ elevation.isFinite = true))

/-- The constructor call that `_newWorkout` makes for a form of type `running` or `cycling` and
the pending location `ev`. -/
def App.built (type : String) (date : JSDate) (now : Nat) (ev : LatLng)
    (distance duration cadence elevation : JSNum) : JSVal :=
  if type = "running" then
    Running date now (.arr [.num ev.lat, .num ev.lng]) distance duration cadence
  else
    Cycling date now (.arr [.num ev.lat, .num ev.lng]) distance duration elevation

/-- One use of the form: the map click that opens it, the values typed into it, and the clock
readings taken when it is submitted. -/
structure Submission where
  click : LatLng
  type : String
  distance : FormInput
  duration : FormInput
  cadence : FormInput
  elevation : FormInput
  date : JSDate
  now : Nat

namespace Submission

/-- The user fills the form. -/
def fill (s : State) (sub : Submission) : State :=
  { s with inputType := sub.type, inputDistance := sub.distance, inputDuration := sub.duration,
           inputCadence := sub.cadence, inputElevation := sub.elevation }

/-- A map click (handled by `_showForm`), the form filled, then the submit event (handled by
`_newWorkout`). -/
def submit (s : State) (sub : Submission) : Outcome :=
  App._newWorkout (fill (App._showForm s sub.click) sub) sub.date sub.now

/-- A sequence of submissions, each handled after the previous handler has ended. The outcome is
`done` when every handler returned; an exception is uncaught and leaves the session running, so
the state is in either case the one after the last submission. -/
def run : State → List Submission → Outcome
  | s, [] => .done s
  | s, sub :: rest =>
    match submit s sub with
    | .done s1 => run s1 rest
    | .threw e s1 => .threw e (run s1 rest).state

/-- The validation contract, read on the submission. -/
def valid (sub : Submission) : Prop :=
  App.validForm sub.type sub.distance.number sub.duration.number sub.cadence.number
    sub.elevation.number

/-- The workout that a valid submission constructs. -/
def workout (sub : Submission) : JSVal :=
  App.built sub.type sub.date sub.now sub.click sub.distance.number sub.duration.number
    sub.cadence.number sub.elevation.number

end Submission

/-- What every state in which a handler can run satisfies: the collection is an array, a
pending location is only present once the map exists, and the map holds a marker without a
position only if some record of the collection has coordinates without a position. -/
def State.wellFormed (s : State) : Prop :=
  (∃ xs, s.workouts = .arr xs) ∧ (s.mapEvent.isSome = true → s.map.isSome = true) ∧
  (∀ m, s.map = some m → m.broken = true →
    ∃ xs x, s.workouts = .arr xs ∧ x ∈ xs ∧ Leaflet.toLatLng (x.get "coords") = .missing)

/-- The states a session can be in between two events. The constructor has returned (so the
submit and list handlers are registered); the map click handler is registered by `_loadMap`,
hence a click needs the map. A handler that throws leaves the state it had reached. -/
inductive Reachable : State → Prop
  | start (storage : Option StoredText) (s : State) (h : App.new storage = .done s) : Reachable s
  | loadMap {s : State} (h : Reachable s) (latitude longitude : JSNum) :
      Reachable (App._loadMap s latitude longitude).state
  | positionFailed {s : State} (h : Reachable s) : Reachable (App.positionFailed s)
  | click {s : State} (h : Reachable s) (mapE : LatLng) (hmap : s.map.isSome = true) :
      Reachable (App._showForm s mapE)
  | moveMap {s : State} (h : Reachable s) (autoPanResets setViewResets : Bool) :
      Reachable (App.moveMap s autoPanResets setViewResets)
  | fill {s : State} (h : Reachable s) (sub : Submission) : Reachable (sub.fill s)
  | toggle {s : State} (h : Reachable s) : Reachable (App._toggleElevationField s)
  | timer {s : State} (h : Reachable s) : Reachable (App.restoreDisplay s)
  | submit {s : State} (h : Reachable s) (date : JSDate) (now : Nat) :
      Reachable (App._newWorkout s date now).state
  | select {s : State} (h : Reachable s) (workoutEl : Option String) :
      Reachable (App._moveToPopup s workoutEl).state

/-- The value read back for an array element `w` after `JSON.stringify` and `JSON.parse`. -/
def JSVal.stored (w : JSVal) : JSVal := (w.serialize).getD .null

/-- Persist the collection with `_setLocalStorage`, then construct a fresh controller on the
resulting storage (which reads it with `_getLocalStorage`). -/
def App.rehydrate (s : State) : Outcome := App.new (App._setLocalStorage s).storage

/-! ## Reference definitions, following the specification's wording -/

namespace Spec

/-- The type with its first letter upper-cased. -/
def typeTitle : WorkoutType → String
  | .running => "Running"
  | .cycling => "Cycling"

/-- The English name of the month with index `m` (`0` is January). -/
def monthName : Nat → String
  | 0 => "January"
  | 1 => "February"
  | 2 => "March"
  | 3 => "April"
  | 4 => "May"
  | 5 => "June"
  | 6 => "July"
  | 7 => "August"
  | 8 => "September"
  | 9 => "October"
  | 10 => "November"
  | _ => "December"

/-- A number as `===` sees it when compared with its serialised copy: `-0` and `0` are equal. -/
def plusZero : JSNum → JSNum
  | .negZero => .fin 0
  | n => n

/-- The workout `w` carries the id `id`. -/
def hasId (id : String) (w : JSVal) : Bool := (w.get "id").isStr id

/-- The plain record that is read back for a running workout built from validated inputs. -/
def runningRecord (date : JSDate) (now : Nat) (lat lng d t c : JSNum) : JSVal :=
  .obj [("date", .str date.iso), ("id", .str (Workout.id now)),
    ("coords", .arr [.num (plusZero lat), .num (plusZero lng)]),
    ("distance", .num d), ("duration", .num t), ("type", .str "running"),
    ("cadence", .num c),
    ("pace", if (t.div d).isFinite then .num (t.div d) else .null),
    ("description", .str (Workout._setDescription .running date))]

/-- The plain record that is read back for a cycling workout built from validated inputs. -/
def cyclingRecord (date : JSDate) (now : Nat) (lat lng d t e : JSNum) : JSVal :=
  .obj [("date", .str date.iso), ("id", .str (Workout.id now)),
    ("coords", .arr [.num (plusZero lat), .num (plusZero lng)]),
    ("distance", .num d), ("duration", .num t), ("type", .str "cycling"),
    ("elevationGain", .num (plusZero e)),
    ("speed", if (Cycling.calcSpeed d t).isFinite then .num (Cycling.calcSpeed d t)
      else .null),
    ("description", .str (Workout._setDescription .cycling date))]

/-- The entry `w'` is the entry `w` read back from storage: id, type, description, distance,
duration and cadence are equal; coords and elevation gain are equal as `===` compares numbers
(a `-0` reads back as `0`); pace and speed are equal when finite and read back as `null` when
infinite; a `Date` reads back as the string that `toJSON()` wrote, any other `date` unchanged. -/
def readBack (w w' : JSVal) : Prop :=
  w'.get "id" = w.get "id" ∧ w'.get "type" = w.get "type" ∧
  w'.get "description" = w.get "description" ∧ w'.get "distance" = w.get "distance" ∧
  w'.get "duration" = w.get "duration" ∧ w'.get "cadence" = w.get "cadence" ∧
  (∃ a b, w.get "coords" = .arr [.num a, .num b] ∧
    w'.get "coords" = .arr [.num (plusZero a), .num (plusZero b)]) ∧
  (match w.get "elevationGain" with
    | .num e => w'.get "elevationGain" = .num (plusZero e)
    | v => w'.get "elevationGain" = v) ∧
  (match w.get "pace" with
    | .num p => w'.get "pace" = (if p.isFinite then .num p else .null)
    | v => w'.get "pace" = v) ∧
  (match w.get "speed" with
    | .num p => w'.get "speed" = (if p.isFinite then .num p else .null)
    | v => w'.get "speed" = v) ∧
  (match w.get "date" with
    | .date d => w'.get "date" = .str d.iso
    | v => w'.get "date" = v)

/-- The pace and the speed of a record, where present, are finite numbers. -/
def finiteMetric (w : JSVal) : Bool :=
  (match w.get "pace" with
    | .num p => p.isFinite
    | .undefined => true
    | _ => false) &&
  (match w.get "speed" with
    | .num p => p.isFinite
    | .undefined => true
    | _ => false)

end Spec

/-! ## Sample data -/

namespace Sample

def date : JSDate := ⟨1793827200123, 10, 4, "2026-11-04T21:20:00.123Z"⟩

def click : LatLng := { lat := .fin 40, lng := .fin (-75) }

/-- An earlier click, elsewhere. -/
def firstClick : LatLng := { lat := .fin 1, lng := .fin 2 }

/-- Running, distance 5, duration 30, cadence 178. -/
def runSub : Submission :=
  ⟨click, "running", ⟨"5", .fin 5⟩, ⟨"30", .fin 30⟩, ⟨"178", .fin 178⟩, .empty, date,
    1793827200123⟩

/-- Cycling, distance 20, duration 60, elevation gain -50. -/
def cycleSub : Submission :=
  ⟨click, "cycling", ⟨"20", .fin 20⟩, ⟨"60", .fin 60⟩, .empty, ⟨"-50", .fin (-50)⟩, date,
    1793827200123⟩

/-- Running with distance -1. -/
def badSub : Submission :=
  ⟨click, "running", ⟨"-1", .fin (-1)⟩, ⟨"30", .fin 30⟩, ⟨"178", .fin 178⟩, .empty, date,
    1793827200123⟩

/-- The map as `_loadMap` creates it for the position (39, -74). -/
def homeMap : LeafletMap :=
  ⟨.arr [.num (.fin 39), .num (.fin (-74))], 13, [], false, false, false⟩

/-- A fresh controller with empty storage whose map has loaded. -/
def ready : State := { App.init none with map := some homeMap }

/-- The loaded controller holding the running workout of `runSub`. -/
def withRun : State := { ready with workouts := .arr [runSub.workout] }

/-- The record that `JSON.parse` returns for the stored text of the running workout of
`runSub`. -/
def storedRun : JSVal :=
  .obj [("date", .str "2026-11-04T21:20:00.123Z"), ("id", .str "3827200123"),
    ("coords", .arr [.num (.fin 40), .num (.fin (-75))]), ("distance", .num (.fin 5)),
    ("duration", .num (.fin 30)), ("type", .str "running"), ("cadence", .num (.fin 178)),
    ("pace", .num (.fin 6)), ("description", .str "Running on November 4")]

/-- The loaded controller of a later session: it holds the record `storedRun` read from storage
and the cycling workout of `cycleSub` submitted since. -/
def laterSession : State := { ready with workouts := .arr [storedRun, cycleSub.workout] }

/-- A page reload with `storedRun` in storage, before geolocation has resolved. -/
def reloaded : State := (App.new (some (.json (.arr [storedRun])))).state

/-- The same session once the map has loaded. -/
def reloadedMap : State := (App._loadMap reloaded (.fin 39) (.fin (-74))).state

/-- A stored running record that has no `coords`. -/
def noCoords : JSVal :=
  .obj [("date", .str "2026-11-04T21:20:00.123Z"), ("id", .str "3827200123"),
    ("distance", .num (.fin 5)), ("duration", .num (.fin 30)), ("type", .str "running"),
    ("cadence", .num (.fin 178)), ("pace", .num (.fin 6)),
    ("description", .str "Running on November 4")]

/-- A session started with `noCoords` in storage: the map loads (`_loadMap` throws at the
record's marker), the user clicks the map, pans far away, and fills the form with `cycleSub`. -/
def strayForm : State :=
  cycleSub.fill (App.moveMap (App._showForm
    (App._loadMap (App.new (some (.json (.arr [noCoords])))).state (.fin 39) (.fin (-74))).state
    click) true false)

/-- Two valid submissions whose clock readings are 10^10 ms (about 116 days) apart. -/
def earlySub : Submission := { runSub with now := 1700000000000 }

def lateSub : Submission := { cycleSub with now := 1710000000000 }

end Sample

/-! ## Theorems -/
/-! ### Numbers -/

theorem JSNum.neg_of_gtZero {a : JSNum} (h : a.gtZero = true) : a.neg = false := by
  cases a <;> simp_all [JSNum.gtZero, JSNum.neg]
  exact le_of_lt h

theorem JSNum.div_fin_pos (t d : ℚ) (ht : 0 < t) (hd : 0 < d) :
    (JSNum.fin t).div (.fin d) = JSNum.ofMag false (t / d) := by
  simp [JSNum.div, JSNum.neg, JSNum.isInf, JSNum.isZero, JSNum.mag, ht.ne', hd.ne',
    abs_of_pos ht, abs_of_pos hd, not_lt.mpr ht.le, not_lt.mpr hd.le]

/-! ### Workout model -/

/-- C5: for every coords and every distance > 0, duration > 0 and cadence > 0,
`new Running(coords, distance, duration, cadence)` has type `running`, stores coords, distance,
duration and cadence unchanged, and its pace is the quotient `duration / distance` of the two
Numbers, which for finite operands is the exact quotient rounded once to binary64; for distance 5
and duration 30 the pace is 6. -/
theorem Running_pace (date : JSDate) (now : Nat) (coords : JSVal)
    (distance duration cadence : JSNum) (hd : distance.gtZero = true)
    (ht : duration.gtZero = true) (hc : cadence.gtZero = true) :
    (Running date now coords distance duration cadence).get "type" = .str "running" ∧
    (Running date now coords distance duration cadence).get "pace"
      = .num (duration.div distance) ∧
    (match duration, distance with
      | .fin t, .fin d => (Running date now coords distance duration cadence).get "pace"
          = .num (JSNum.ofMag false (t / d))
      | _, _ => True) ∧
    (Running date now coords distance duration cadence).get "coords" = coords ∧
    (Running date now coords distance duration cadence).get "distance" = .num distance ∧
    (Running date now coords distance duration cadence).get "duration" = .num duration ∧
    (Running date now coords distance duration cadence).get "cadence" = .num cadence ∧
    cadence.neg = false ∧
    (Running date now coords (.fin 5) (.fin 30) cadence).get "pace" = .num (.fin 6) := by
  refine ⟨rfl, rfl, ?_, rfl, rfl, rfl, rfl, JSNum.neg_of_gtZero hc, ?_⟩
  · cases duration <;> cases distance <;> try trivial
    rename_i t d
    have ht' : 0 < t := by simpa [JSNum.gtZero] using ht
    have hd' : 0 < d := by simpa [JSNum.gtZero] using hd
    show JSVal.num ((JSNum.fin t).div (.fin d)) = _
    rw [JSNum.div_fin_pos t d ht' hd']
  · show JSVal.num ((JSNum.fin 30).div (.fin 5)) = _
    exact congrArg JSVal.num (by decide!)

theorem Running_pace_witness :
    (Running Sample.date 1793827200123 (.arr [.num (.fin 40), .num (.fin (-75))])
        (.fin 5) (.fin 30) (.fin 178)).get "pace" = .num (.fin 6) :=
  (Running_pace Sample.date 1793827200123 (.arr [.num (.fin 40), .num (.fin (-75))])
    (.fin 5) (.fin 30) (.fin 178) (by decide!) (by decide!) (by decide!)).2.2.2.2.2.2.2.2

/-- C6 (as stated, refuted): for distance 11 and duration 11 the speed that `new Cycling` stores,
`11 / (11 / 60)`, is 60.00000000000001 (that is 8444249301319681 / 2^47), while
`60 * 11 / 11` is 60, both as JavaScript evaluates it and exactly. -/
theorem Cycling_speed_not_sixty_times :
    (Cycling Sample.date 0 .null (.fin 11) (.fin 11) (.fin 0)).get "speed"
      = .num (.fin (8444249301319681 / 140737488355328)) ∧
    ((JSNum.fin 60).mul (.fin 11)).div (.fin 11) = .fin 60 ∧
    (Cycling Sample.date 0 .null (.fin 11) (.fin 11) (.fin 0)).get "speed"
      ≠ .num (((JSNum.fin 60).mul (.fin 11)).div (.fin 11)) ∧
    (Cycling Sample.date 0 .null (.fin 11) (.fin 11) (.fin 0)).get "speed"
      ≠ .num (.fin (60 * 11 / 11)) := by
  have h : Cycling.calcSpeed (.fin 11) (.fin 11) = .fin (8444249301319681 / 140737488355328) := by
    decide!
  have h2 : ((JSNum.fin 60).mul (.fin 11)).div (.fin 11) = .fin 60 := by decide!
  refine ⟨congrArg JSVal.num h, h2, ?_, ?_⟩
  · show JSVal.num (Cycling.calcSpeed (.fin 11) (.fin 11)) ≠ _
    rw [h, h2]
    intro hc
    injection hc with hc
    revert hc
    decide!
  · show JSVal.num (Cycling.calcSpeed (.fin 11) (.fin 11)) ≠ _
    rw [h]
    intro hc
    injection hc with hc
    revert hc
    decide!

/-- C6 (amended): for every coords, every distance > 0 and duration > 0 and every elevationGain,
`new Cycling(coords, distance, duration, elevationGain)` has type `cycling` and its speed is
`distance / (duration / 60)` as JavaScript evaluates it: two divisions, each rounded to binary64
(for finite operands the divisor is the exact `duration / 60` rounded to binary64).
The speed does not depend on elevationGain; for distance 20 and duration 60 it is 20. -/
theorem Cycling_speed (date : JSDate) (now : Nat) (coords : JSVal)
    (distance duration elevationGain : JSNum) (hd : distance.gtZero = true)
    (ht : duration.gtZero = true) :
    (Cycling date now coords distance duration elevationGain).get "type" = .str "cycling" ∧
    (Cycling date now coords distance duration elevationGain).get "speed"
      = .num (distance.div (duration.div (.fin 60))) ∧
    (match duration, distance with
      | .fin t, .fin d => (Cycling date now coords distance duration elevationGain).get "speed"
          = .num ((JSNum.fin d).div (JSNum.ofMag false (t / 60)))
      | _, _ => True) ∧
    (∀ e : JSNum, (Cycling date now coords distance duration e).get "speed"
      = (Cycling date now coords distance duration elevationGain).get "speed") ∧
    (Cycling date now coords distance duration elevationGain).get "elevationGain"
      = .num elevationGain ∧
    (Cycling date now coords (.fin 20) (.fin 60) elevationGain).get "speed" = .num (.fin 20) := by
  refine ⟨rfl, rfl, ?_, fun _ => rfl, rfl, ?_⟩
  · cases duration <;> cases distance <;> try trivial
    rename_i t d
    have ht' : 0 < t := by simpa [JSNum.gtZero] using ht
    show JSVal.num ((JSNum.fin d).div ((JSNum.fin t).div (.fin 60))) = _
    rw [JSNum.div_fin_pos t 60 ht' (by norm_num)]
  · show JSVal.num (Cycling.calcSpeed (.fin 20) (.fin 60)) = _
    exact congrArg JSVal.num (by decide!)

theorem Cycling_speed_witness :
    (Cycling Sample.date 1793827200123 (.arr [.num (.fin 40), .num (.fin (-75))])
        (.fin 20) (.fin 60) (.fin (-50))).get "speed" = .num (.fin 20) :=
  (Cycling_speed Sample.date 1793827200123 (.arr [.num (.fin 40), .num (.fin (-75))])
    (.fin 20) (.fin 60) (.fin (-50)) (by decide!) (by decide!)).2.2.2.2.2

/-- C7: for a workout type in {running, cycling} and a creation date with month index `m` in
0..11 and day of month `d`, `_setDescription` produces the type with its first letter
upper-cased, `" on "`, the `m`-th English month name, a space, and `d` in decimal; a running
workout created on 4 November gets "Running on November 4". -/
theorem setDescription_format (type : WorkoutType) (date : JSDate) (hm : date.month < 12) :
    Workout._setDescription type date
      = Spec.typeTitle type ++ " on " ++ Spec.monthName date.month ++ " " ++ Nat.repr date.day ∧
    Workout._setDescription .running { date with month := 10, day := 4 }
      = "Running on November 4" := by
  obtain ⟨time, month, day, iso⟩ := date
  simp only at hm
  have h1 : firstUpper type.name ++ sliceFrom1 type.name = Spec.typeTitle type := by
    cases type <;> decide
  have h2 : Workout.monthText month = Spec.monthName month := by
    interval_cases month <;> rfl
  refine ⟨?_, ?_⟩
  · simp only [Workout._setDescription, h1, h2, numberToString]
  · simp only [Workout._setDescription]
    decide

theorem setDescription_format_witness :
    Workout._setDescription .running Sample.date = "Running on November 4" :=
  (setDescription_format .running Sample.date (by decide)).2

/-! ### Submitting the form -/

theorem Leaflet.toLatLng_pair {a b : JSNum} (ha : a ≠ JSNum.nan) (hb : b ≠ JSNum.nan) :
    Leaflet.toLatLng (.arr [.num a, .num b]) = .usable := by
  simp [Leaflet.toLatLng, JSVal.isObjectType, Leaflet.newLatLng, JSVal.isNaN, ha, hb]

theorem App.built_coords (type : String) (date : JSDate) (now : Nat) (ev : LatLng)
    (d t c e : JSNum) :
    (App.built type date now ev d t c e).prop "coords"
      = .ok (.arr [.num ev.lat, .num ev.lng]) := by
  unfold App.built
  split <;> rfl

theorem App.newWorkout_valid (s : State) (ev : LatLng) (m : LeafletMap) (xs : List JSVal)
    (date : JSDate) (now : Nat) (hev : s.mapEvent = some ev) (hmap : s.map = some m)
    (hws : s.workouts = .arr xs)
    (hv : App.validForm s.inputType s.inputDistance.number s.inputDuration.number
      s.inputCadence.number s.inputElevation.number) :
    ∃ s', App._newWorkout s date now
        = (if (m.broken && m.autoPanResets) = true then .threw .typeError s' else .done s') ∧
      s'.workouts = .arr (xs ++ [App.built s.inputType date now ev s.inputDistance.number
        s.inputDuration.number s.inputCadence.number s.inputElevation.number]) ∧
      s'.storage = (if (m.broken && m.autoPanResets) = true then s.storage
        else some (JSON.stringify s'.workouts)) ∧
      s'.formHidden = (if (m.broken && m.autoPanResets) = true then s.formHidden else true) ∧
      (∃ m', s'.map = some m' ∧ m'.broken = m.broken ∧ m'.autoPanResets = m.autoPanResets ∧
        m'.setViewResets = m.setViewResets) ∧
      s'.alerts = s.alerts := by
  have hpos := Leaflet.toLatLng_pair ev.latNumber ev.lngNumber
  obtain ⟨⟨hd1, hd2⟩, ⟨ht1, ht2⟩, hk⟩ := hv
  by_cases hbr : (m.broken && m.autoPanResets) = true
  · rcases hk with ⟨hty, hc1, hc2⟩ | ⟨hty, he⟩
    · simp [App._newWorkout, hev, hty, App.validInputs, App.allPositive, hd1, hd2, ht1, ht2, hc1,
        hc2, App.addWorkout, hws, App._renderWorkOutMarker, JSVal.prop, Running, hmap, hpos,
        Outcome.andThen, JSVal.get, List.lookup, App.built, hbr]
    · simp [App._newWorkout, hev, hty, App.validInputs, App.allPositive, hd1, hd2, ht1, ht2, he,
        App.addWorkout, hws, App._renderWorkOutMarker, JSVal.prop, Cycling, hmap, hpos,
        Outcome.andThen, JSVal.get, List.lookup, App.built, hbr]
  · rcases hk with ⟨hty, hc1, hc2⟩ | ⟨hty, he⟩
    · simp [App._newWorkout, hev, hty, App.validInputs, App.allPositive, hd1, hd2, ht1, ht2, hc1,
        hc2, App.addWorkout, hws, App._renderWorkOutMarker, JSVal.prop, Running, hmap, hpos,
        Outcome.andThen, App._renderWorkout, JSVal.get, List.lookup, JSVal.isStr,
        App.toFixedArg, App._setLocalStorage, App._hideForm, App.built, hbr]
    · simp [App._newWorkout, hev, hty, App.validInputs, App.allPositive, hd1, hd2, ht1, ht2, he,
        App.addWorkout, hws, App._renderWorkOutMarker, JSVal.prop, Cycling, hmap, hpos,
        Outcome.andThen, App._renderWorkout, JSVal.get, List.lookup, JSVal.isStr,
        App.toFixedArg, App._setLocalStorage, App._hideForm, App.built, hbr]

/-! ### Reachable states -/

theorem App.forEach_preserves (P : State → Prop) (f : State → JSVal → Outcome)
    (xs : List JSVal) (hf : ∀ s x, x ∈ xs → P s → P (f s x).state) :
    ∀ s : State, P s → P (App.forEach f s xs).state := by
  induction xs with
  | nil => intro s h; exact h
  | cons x rest ih =>
    intro s h
    have hx := hf s x (List.mem_cons_self _ _) h
    have ih' := ih (fun s y hy => hf s y (List.mem_cons_of_mem _ hy))
    unfold App.forEach
    cases hfx : f s x with
    | done s1 =>
      rw [hfx] at hx
      exact ih' s1 hx
    | threw e s1 =>
      rw [hfx] at hx
      exact hx

theorem App.renderWorkout_wellFormed (s : State) (w : JSVal) (h : s.wellFormed) :
    (App._renderWorkout s w).state.wellFormed := by
  unfold App._renderWorkout
  split
  · exact h
  · simp only
    split_ifs <;> (try split) <;> exact h

theorem App.renderWorkOutMarker_state (s : State) (w : JSVal) :
    (App._renderWorkOutMarker s w).state.workouts = s.workouts ∧
    (App._renderWorkOutMarker s w).state.mapEvent = s.mapEvent ∧
    (s.map.isSome = true → (App._renderWorkOutMarker s w).state.map.isSome = true) ∧
    (∀ m', (App._renderWorkOutMarker s w).state.map = some m' → m'.broken = true →
      (∃ m, s.map = some m ∧ m.broken = true) ∨
        Leaflet.toLatLng (w.get "coords") = .missing) := by
  unfold App._renderWorkOutMarker
  cases hp : w.prop "coords" with
  | error e => exact ⟨rfl, rfl, fun h => h, fun m' h1 h2 => Or.inl ⟨m', h1, h2⟩⟩
  | ok coords =>
    have hc : coords = w.get "coords" := by
      cases w <;> simp_all [JSVal.prop]
    subst hc
    simp only
    cases hpos : Leaflet.toLatLng (w.get "coords") with
    | invalid => exact ⟨rfl, rfl, fun h => h, fun m' h1 h2 => Or.inl ⟨m', h1, h2⟩⟩
    | missing =>
      simp only
      cases hm : s.map with
      | none => exact ⟨rfl, rfl, fun h => by simp [hm] at h, fun m' h1 h2 => Or.inr trivial⟩
      | some m => exact ⟨rfl, rfl, fun _ => rfl, fun m' h1 h2 => Or.inr trivial⟩
    | usable =>
      simp only
      cases hm : s.map with
      | none => exact ⟨rfl, rfl, fun h => by simp [hm] at h, fun m' h1 h2 => by
          simp [Outcome.state, hm] at h1⟩
      | some m =>
        simp only
        split_ifs
        all_goals
          refine ⟨rfl, rfl, fun _ => rfl, fun m' h1 h2 => Or.inl ⟨m, rfl, ?_⟩⟩
          simp only [Outcome.state, Option.some.injEq] at h1
          subst h1
          exact h2

theorem App.renderWorkOutMarker_wellFormed (s : State) (w : JSVal) (h : s.wellFormed)
    (hw : ∀ xs, s.workouts = .arr xs → w ∈ xs) :
    (App._renderWorkOutMarker s w).state.wellFormed := by
  obtain ⟨h1, h2, h3, h4⟩ := App.renderWorkOutMarker_state s w
  obtain ⟨⟨xs, hxs⟩, hb, hc⟩ := h
  refine ⟨⟨xs, by rw [h1, hxs]⟩, ?_, ?_⟩
  · intro he
    rw [h2] at he
    exact h3 (hb he)
  · intro m' hm' hbr
    rw [h1]
    rcases h4 m' hm' hbr with ⟨m, hm, hmb⟩ | hmiss
    · exact hc m hm hmb
    · exact ⟨xs, w, hxs, hw xs hxs, hmiss⟩

theorem App.new_wellFormed (storage : Option StoredText) (s : State)
    (h : App.new storage = .done s) : s.wellFormed := by
  have h0 : ∀ st, (App.init st).wellFormed := by
    intro st
    refine ⟨⟨[], rfl⟩, ?_, ?_⟩
    · intro h
      cases h
    · intro m h
      cases h
  have h00 : ∀ st xs, State.wellFormed { App.init st with workouts := .arr xs } := by
    intro st xs
    refine ⟨⟨xs, rfl⟩, ?_, ?_⟩
    · intro h
      cases h
    · intro m h
      cases h
  cases storage with
  | none =>
    have h1 : App.new none = .done (App.init none) := rfl
    rw [h1] at h
    cases h
    exact h0 none
  | some t =>
    cases t with
    | malformed text =>
      have h1 : App.new (some (.malformed text))
          = .threw .syntaxError (App.init (some (.malformed text))) := rfl
      rw [h1] at h
      cases h
    | json v =>
      cases ht : v.truthy
      · have h1 : App.new (some (.json v)) = .done (App.init (some (.json v))) := by
          simp [App.new, App._getLocalStorage, App.init, ht]
        rw [h1] at h
        cases h
        exact h0 _
      · cases v with
        | arr xs =>
          have hP := App.forEach_preserves State.wellFormed App._renderWorkout xs
            (fun s x _ hs => App.renderWorkout_wellFormed s x hs)
            { App.init (some (.json (.arr xs))) with workouts := .arr xs } (h00 _ xs)
          have h1 : App.new (some (.json (.arr xs))) = App.forEach App._renderWorkout
              { App.init (some (.json (.arr xs))) with workouts := .arr xs } xs := by
            simp [App.new, App._getLocalStorage, App.init, ht]
          rw [← h1, h] at hP
          exact hP
        | _ => simp_all [App.new, App._getLocalStorage, App.init]

theorem App.addWorkout_wellFormed (s : State) (w : JSVal) (h : s.wellFormed) :
    (App.addWorkout s w).state.wellFormed := by
  unfold App.addWorkout
  split
  · rename_i xs hxs
    have h1 : State.wellFormed { s with workouts := .arr (xs ++ [w]) } := by
      refine ⟨⟨_, rfl⟩, h.2.1, ?_⟩
      intro m hm hbr
      obtain ⟨xs', x, hxs', hx, hmiss⟩ := h.2.2 m hm hbr
      rw [hxs] at hxs'
      injection hxs' with hxs'
      subst hxs'
      exact ⟨_, x, rfl, List.mem_append_left _ hx, hmiss⟩
    have h2 := App.renderWorkOutMarker_wellFormed _ w h1 (by
      intro ys hys
      have hys' : JSVal.arr (xs ++ [w]) = JSVal.arr ys := hys
      injection hys' with hys'
      rw [← hys']
      simp)
    cases hm : App._renderWorkOutMarker { s with workouts := .arr (xs ++ [w]) } w with
    | threw e s1 =>
      rw [hm] at h2
      exact h2
    | done s1 =>
      rw [hm] at h2
      have h3 := App.renderWorkout_wellFormed s1 w h2
      simp only [Outcome.andThen]
      cases hr : App._renderWorkout s1 w with
      | threw e s2 =>
        rw [hr] at h3
        exact h3
      | done s2 =>
        rw [hr] at h3
        exact h3
  · exact h

theorem App.newWorkout_wellFormed (s : State) (date : JSDate) (now : Nat) (h : s.wellFormed) :
    (App._newWorkout s date now).state.wellFormed := by
  unfold App._newWorkout
  simp only
  split
  · exact h
  · split_ifs <;> first | exact h | exact App.addWorkout_wellFormed _ _ h

theorem App.moveToPopup_wellFormed (s : State) (el : Option String) (h : s.wellFormed) :
    (App._moveToPopup s el).state.wellFormed := by
  have key : ∀ (m : LeafletMap) (c : JSVal) (z : Nat), s.map = some m →
      State.wellFormed { s with map := some { m with center := c, zoom := z } } := by
    intro m c z hm
    refine ⟨h.1, fun _ => rfl, ?_⟩
    intro m' hm' hbr
    simp only [Option.some.injEq] at hm'
    subst hm'
    exact h.2.2 m hm hbr
  unfold App._moveToPopup
  repeat' split
  all_goals first | exact h | (apply key; assumption)

theorem App.moveMap_wellFormed (s : State) (a b : Bool) (h : s.wellFormed) :
    (App.moveMap s a b).wellFormed := by
  unfold App.moveMap
  split
  · exact h
  · rename_i m hm
    refine ⟨h.1, fun _ => rfl, ?_⟩
    intro m' hm' hbr
    simp only [Option.some.injEq] at hm'
    subst hm'
    exact h.2.2 m hm hbr

theorem Reachable.wellFormed {s : State} (h : Reachable s) : s.wellFormed := by
  induction h with
  | start storage s h => exact App.new_wellFormed storage s h
  | loadMap hr latitude longitude ih =>
    rename_i s0
    obtain ⟨xs, hxs⟩ := ih.1
    have hP := App.forEach_preserves
      (fun s => s.wellFormed ∧ s.workouts = .arr xs) App._renderWorkOutMarker xs
      (by
        intro s x hx hs
        refine ⟨App.renderWorkOutMarker_wellFormed s x hs.1 ?_, ?_⟩
        · intro ys hys
          rw [hs.2] at hys
          injection hys with hys
          rw [← hys]
          exact hx
        · rw [(App.renderWorkOutMarker_state s x).1]
          exact hs.2)
      { s0 with map := some ⟨.arr [.num latitude, .num longitude], s0.mapZoomLevel, [],
          false, false, false⟩ }
      (by
        refine ⟨⟨⟨xs, hxs⟩, fun _ => rfl, ?_⟩, hxs⟩
        intro m hm hbr
        simp only [Option.some.injEq] at hm
        subst hm
        cases hbr)
    unfold App._loadMap
    split
    · have hP1 := hP.1
      simp only [hxs] at hP1 ⊢
      exact hP1
    · exact ih
  | positionFailed _ ih => exact ih
  | click _ mapE hmap ih => exact ⟨ih.1, fun _ => hmap, ih.2.2⟩
  | moveMap _ a b ih => exact App.moveMap_wellFormed _ a b ih
  | fill _ sub ih => exact ih
  | toggle _ ih => exact ih
  | timer _ ih => exact ih
  | submit _ date now ih => exact App.newWorkout_wellFormed _ date now ih
  | select _ el ih => exact App.moveToPopup_wellFormed _ el ih

theorem Sample.ready_reachable : Reachable Sample.ready :=
  (Reachable.start none (App.init none) rfl).loadMap (.fin 39) (.fin (-74))

theorem serializeItems_eq_map (xs : List JSVal) : serializeItems xs = xs.map JSVal.stored := by
  induction xs with
  | nil => rfl
  | cons x rest ih => simp [serializeItems, ih, JSVal.stored]

theorem Submission.run_valid (subs : List Submission) :
    ∀ (s : State) (m : LeafletMap) (xs : List JSVal), s.map = some m → s.workouts = .arr xs →
      (∀ sub ∈ subs, sub.valid) →
      (Submission.run s subs).state.workouts = .arr (xs ++ subs.map Submission.workout) ∧
      (∃ m', (Submission.run s subs).state.map = some m' ∧ m'.broken = m.broken ∧
        m'.autoPanResets = m.autoPanResets) ∧
      ((m.broken && m.autoPanResets) = false →
        ∃ s', Submission.run s subs = .done s' ∧
          (subs ≠ [] → s'.storage = some (JSON.stringify s'.workouts))) := by
  induction subs with
  | nil =>
    intro s m xs hmap hws _
    exact ⟨by simpa [Submission.run, Outcome.state] using hws, ⟨m, hmap, rfl, rfl⟩,
      fun _ => ⟨s, rfl, by simp⟩⟩
  | cons sub rest ih =>
    intro s m xs hmap hws hv
    have hsub : sub.valid := hv sub (List.mem_cons_self _ _)
    obtain ⟨s1, h1, hw1, hst1, -, ⟨m1, hm1, hb1, ha1, -⟩, -⟩ :=
      App.newWorkout_valid (Submission.fill (App._showForm s sub.click) sub) sub.click m xs
        sub.date sub.now rfl hmap hws hsub
    obtain ⟨h2, ⟨m2, hm2, hb2, ha2⟩, h3⟩ :=
      ih s1 m1 _ hm1 hw1 (fun x hx => hv x (List.mem_cons_of_mem _ hx))
    have hstate : (Submission.run s (sub :: rest)).state = (Submission.run s1 rest).state := by
      simp only [Submission.run, Submission.submit, h1]
      split_ifs <;> rfl
    refine ⟨?_, ⟨m2, ?_, by rw [hb2, hb1], by rw [ha2, ha1]⟩, ?_⟩
    · rw [hstate, h2]
      simp [Submission.workout, Submission.fill, App._showForm]
    · rw [hstate]
      exact hm2
    · intro hok
      have hok1 : (m1.broken && m1.autoPanResets) = false := by rw [hb1, ha1]; exact hok
      obtain ⟨s2, hr2, hs2⟩ := h3 hok1
      have hno : ¬ ((m.broken && m.autoPanResets) = true) := by simp [hok]
      rw [if_neg hno] at h1 hst1
      refine ⟨s2, by simp only [Submission.run, Submission.submit, h1, hr2], ?_⟩
      intro _
      cases rest with
      | nil =>
        simp only [Submission.run] at hr2
        cases hr2
        exact hst1
      | cons y ys => exact hs2 (by simp)

/-- C1: in a controller state with a pending map location, a submission of type running or
cycling in which distance or duration is non-finite or not strictly positive, or (running) the
cadence is non-finite or not strictly positive, or (cycling) the elevation gain is non-finite,
makes `_newWorkout` raise the alert and return with nothing else changed: the workout collection,
the persisted snapshot, the pending location, the list and the visibility of the form are as
before. -/
theorem newWorkout_rejects_invalid (s : State) (ev : LatLng) (date : JSDate) (now : Nat)
    (hev : s.mapEvent = some ev)
    (hty : s.inputType = "running" ∨ s.inputType = "cycling")
    (hbad : s.inputDistance.number.isFinite = false ∨ s.inputDistance.number.gtZero = false ∨
      s.inputDuration.number.isFinite = false ∨ s.inputDuration.number.gtZero = false ∨
      (s.inputType = "running" ∧
        (s.inputCadence.number.isFinite = false ∨ s.inputCadence.number.gtZero = false)) ∨
      (s.inputType = "cycling" ∧ s.inputElevation.number.isFinite = false)) :
    App._newWorkout s date now = .done { s with alerts := s.alerts ++ [App.alertText] } ∧
    (App._newWorkout s date now).state.workouts = s.workouts ∧
    (App._newWorkout s date now).state.storage = s.storage ∧
    (App._newWorkout s date now).state.mapEvent = s.mapEvent ∧
    (App._newWorkout s date now).state.formHidden = s.formHidden ∧
    (App._newWorkout s date now).state.list = s.list := by
  have key : App._newWorkout s date now
      = .done { s with alerts := s.alerts ++ [App.alertText] } := by
    rcases hty with hty | hty
    · have hne : ¬ ("running" = "cycling") := by decide
      simp only [hty, hne, false_and, or_false, true_and] at hbad
      simp only [App._newWorkout, hev, hty, if_true, App.validInputs, App.allPositive,
        List.all_cons, List.all_nil, Bool.and_true]
      rw [if_pos]
      rcases hbad with h | h | h | h | h | h <;> simp [h]
    · have hne : ¬ ("cycling" = "running") := by decide
      simp only [hty, hne, false_and, false_or, true_and] at hbad
      simp only [App._newWorkout, hev, hty, if_true, App.validInputs, App.allPositive,
        List.all_cons, List.all_nil, Bool.and_true]
      rw [if_neg (by decide), if_pos]
      rcases hbad with h | h | h | h | h <;> simp [h]
  rw [key]
  exact ⟨rfl, rfl, rfl, rfl, rfl, rfl⟩

theorem newWorkout_rejects_invalid_witness :
    App._newWorkout (Submission.fill (App._showForm Sample.ready Sample.click) Sample.badSub)
        Sample.date 1793827200123
      = .done { Submission.fill (App._showForm Sample.ready Sample.click) Sample.badSub with
          alerts := [App.alertText] } :=
  (newWorkout_rejects_invalid
    (Submission.fill (App._showForm Sample.ready Sample.click) Sample.badSub) Sample.click
    Sample.date 1793827200123 rfl (Or.inl rfl) (Or.inr (Or.inl (by decide!)))).1

/-- C2: in every reachable controller state with a pending map location, a submission that
satisfies the validation contract (elevation gain any finite number, also zero or negative)
makes `_newWorkout` leave the collection equal to the previous one with exactly one workout
appended at the end; that workout has the submitted type, distance, duration and cadence /
elevation gain, and its coords are the pending location, which is the coordinate of the most
recent map click since every click overwrites it. The handler returns, unless the map holds a
marker without a position and opening the new popup resets the view, when it throws after the
push; it always returns when every record of the collection has usable coords. -/
theorem newWorkout_appends (s : State) (ev : LatLng) (date : JSDate) (now : Nat)
    (hr : Reachable s) (hev : s.mapEvent = some ev)
    (hv : App.validForm s.inputType s.inputDistance.number s.inputDuration.number
      s.inputCadence.number s.inputElevation.number) :
    ∃ xs w m, s.workouts = .arr xs ∧ s.map = some m ∧
      (App._newWorkout s date now).state.workouts = .arr (xs ++ [w]) ∧
      w.get "type" = .str s.inputType ∧
      w.get "distance" = .num s.inputDistance.number ∧
      w.get "duration" = .num s.inputDuration.number ∧
      (if s.inputType = "running" then w.get "cadence" = .num s.inputCadence.number
        else w.get "elevationGain" = .num s.inputElevation.number) ∧
      w.get "coords" = .arr [.num ev.lat, .num ev.lng] ∧
      (if (m.broken && m.autoPanResets) = true
        then ∃ s', App._newWorkout s date now = .threw .typeError s'
        else ∃ s', App._newWorkout s date now = .done s') ∧
      (if xs.all (fun x => decide (Leaflet.toLatLng (x.get "coords") = .usable)) = true
        then ∃ s', App._newWorkout s date now = .done s' else True) ∧
      ∀ (s0 : State) (c1 c2 : LatLng),
        (App._showForm (App._showForm s0 c1) c2).mapEvent = some c2 := by
  obtain ⟨⟨xs, hws⟩, hwf, hbroken⟩ := hr.wellFormed
  obtain ⟨m, hmap⟩ := Option.isSome_iff_exists.mp (hwf (by rw [hev]; rfl))
  obtain ⟨s', h1, h2, -⟩ := App.newWorkout_valid s ev m xs date now hev hmap hws hv
  have hstate : (App._newWorkout s date now).state = s' := by
    rw [h1]
    split_ifs <;> rfl
  have hout : if (m.broken && m.autoPanResets) = true
      then ∃ s', App._newWorkout s date now = .threw .typeError s'
      else ∃ s', App._newWorkout s date now = .done s' := by
    rw [h1]
    split_ifs <;> exact ⟨s', rfl⟩
  refine ⟨xs, _, m, hws, hmap, by rw [hstate, h2], ?_, ?_, ?_, ?_, ?_, hout, ?_,
    fun _ _ _ => rfl⟩
  · obtain ⟨-, -, hk⟩ := hv
    rcases hk with ⟨hty, -⟩ | ⟨hty, -⟩ <;> simp [App.built, hty] <;> rfl
  · obtain ⟨-, -, hk⟩ := hv
    rcases hk with ⟨hty, -⟩ | ⟨hty, -⟩ <;> simp [App.built, hty] <;> rfl
  · obtain ⟨-, -, hk⟩ := hv
    rcases hk with ⟨hty, -⟩ | ⟨hty, -⟩ <;> simp [App.built, hty] <;> rfl
  · obtain ⟨-, -, hk⟩ := hv
    rcases hk with ⟨hty, -⟩ | ⟨hty, -⟩ <;> simp [App.built, hty] <;> rfl
  · obtain ⟨-, -, hk⟩ := hv
    rcases hk with ⟨hty, -⟩ | ⟨hty, -⟩ <;> simp [App.built, hty] <;> rfl
  · split_ifs with hall
    · have hnb : m.broken = false := by
        cases hb : m.broken
        · rfl
        · obtain ⟨xs', x, hxs', hx, hmiss⟩ := hbroken m hmap hb
          rw [hws] at hxs'
          injection hxs' with hxs'
          subst hxs'
          have := List.all_eq_true.mp hall x hx
          simp [hmiss] at this
      simpa [hnb] using hout

theorem newWorkout_appends_witness :
    ∃ w, (App._newWorkout
        (Submission.fill (App._showForm (App._showForm Sample.ready Sample.firstClick)
          Sample.click) Sample.cycleSub) Sample.date 1793827200123).state.workouts
        = .arr [w] ∧
      w.get "type" = .str "cycling" ∧
      w.get "distance" = .num (.fin 20) ∧ w.get "duration" = .num (.fin 60) ∧
      w.get "elevationGain" = .num (.fin (-50)) ∧
      w.get "coords" = .arr [.num (.fin 40), .num (.fin (-75))] ∧
      ∃ s', App._newWorkout
        (Submission.fill (App._showForm (App._showForm Sample.ready Sample.firstClick)
          Sample.click) Sample.cycleSub) Sample.date 1793827200123 = .done s' := by
  obtain ⟨xs, w, m, h0, hm, h2, h3, h4, h5, h6, h7, -, h9, -⟩ := newWorkout_appends
    (Submission.fill (App._showForm (App._showForm Sample.ready Sample.firstClick)
      Sample.click) Sample.cycleSub) Sample.click Sample.date 1793827200123
    (((Sample.ready_reachable.click Sample.firstClick rfl).click Sample.click rfl).fill
      Sample.cycleSub)
    rfl ⟨⟨rfl, by decide!⟩, ⟨rfl, by decide!⟩, Or.inr ⟨rfl, rfl⟩⟩
  have hxs : xs = [] := by
    have h0' : JSVal.arr [] = JSVal.arr xs := h0
    injection h0' with h0'
    exact h0'.symm
  subst hxs
  exact ⟨w, h2, h3, h4, h5, h6, h7, by simpa using h9⟩

/-- C9 (as stated, refuted): a session starts with a record without `coords` in storage. The map
loads (`_loadMap` throws at that record's marker, which Leaflet has registered without a
position); the user clicks the map, pans far away and submits a valid cycling workout. Then
`_newWorkout` throws a `TypeError` while rendering the marker: the collection holds the old
record and the new workout, the storage still holds the old snapshot, which is not the
serialisation of the collection. -/
theorem newWorkout_not_persisted :
    Reachable Sample.strayForm ∧ Sample.strayForm.mapEvent = some Sample.click ∧
    App.validForm Sample.strayForm.inputType Sample.strayForm.inputDistance.number
      Sample.strayForm.inputDuration.number Sample.strayForm.inputCadence.number
      Sample.strayForm.inputElevation.number ∧
    ∃ s', App._newWorkout Sample.strayForm Sample.date 1793827200123 = .threw .typeError s' ∧
      s'.workouts = .arr [Sample.noCoords, Sample.cycleSub.workout] ∧
      s'.storage = some (.json (.arr [Sample.noCoords])) ∧
      s'.storage ≠ some (JSON.stringify s'.workouts) := by
  have hv : App.validForm Sample.strayForm.inputType Sample.strayForm.inputDistance.number
      Sample.strayForm.inputDuration.number Sample.strayForm.inputCadence.number
      Sample.strayForm.inputElevation.number :=
    ⟨⟨rfl, by decide!⟩, ⟨rfl, by decide!⟩, Or.inr ⟨rfl, rfl⟩⟩
  have hreach : Reachable Sample.strayForm :=
    ((((Reachable.start (some (.json (.arr [Sample.noCoords])))
      (App.new (some (.json (.arr [Sample.noCoords])))).state rfl).loadMap (.fin 39)
      (.fin (-74))).click Sample.click rfl).moveMap true false).fill Sample.cycleSub
  obtain ⟨s', h1, h2, h3, -⟩ := App.newWorkout_valid Sample.strayForm Sample.click
    ⟨.arr [.num (.fin 39), .num (.fin (-74))], 13, [], true, true, false⟩ [Sample.noCoords]
    Sample.date 1793827200123 rfl rfl rfl hv
  refine ⟨hreach, rfl, hv, s', h1, h2, h3, ?_⟩
  rw [h3, h2]
  intro h
  have h' : StoredText.json (.arr [Sample.noCoords])
      = JSON.stringify (.arr [Sample.noCoords, Sample.cycleSub.workout]) :=
    Option.some.inj h
  simp only [JSON.stringify, JSVal.serialize, serializeItems_eq_map] at h'
  injection h' with h'
  injection h' with h'
  have hlen := congrArg List.length h'
  simp at hlen

/-- C9 (amended): in every reachable state with a pending location whose map does not both hold
a marker without a position and have to reset its view to show the new popup, a successful
`_newWorkout` returns and leaves under the storage key the serialisation of the whole in-memory
collection (the earlier entries followed by the new one), whatever was stored before; the same
holds after every further run of successful submissions, so the persisted snapshot mirrors the
in-memory collection. The map holds no marker without a position whenever every record of the
collection has usable coords. -/
theorem newWorkout_persists_collection (s : State) (ev : LatLng) (m : LeafletMap)
    (date : JSDate) (now : Nat) (subs : List Submission) (hr : Reachable s)
    (hev : s.mapEvent = some ev) (hmap : s.map = some m)
    (hok : (m.broken && m.autoPanResets) = false)
    (hv : App.validForm s.inputType s.inputDistance.number s.inputDuration.number
      s.inputCadence.number s.inputElevation.number)
    (hsubs : ∀ sub ∈ subs, sub.valid) :
    ∃ xs s1 s2, s.workouts = .arr xs ∧ App._newWorkout s date now = .done s1 ∧
      s1.workouts = .arr (xs ++ [App.built s.inputType date now ev s.inputDistance.number
        s.inputDuration.number s.inputCadence.number s.inputElevation.number]) ∧
      s1.storage = some (JSON.stringify s1.workouts) ∧
      Submission.run s1 subs = .done s2 ∧
      s2.workouts = .arr (xs ++ [App.built s.inputType date now ev s.inputDistance.number
        s.inputDuration.number s.inputCadence.number s.inputElevation.number]
        ++ subs.map Submission.workout) ∧
      s2.storage = some (JSON.stringify s2.workouts) ∧
      (if xs.all (fun x => decide (Leaflet.toLatLng (x.get "coords") = .usable)) = true
        then m.broken = false else True) := by
  obtain ⟨⟨xs, hws⟩, -, hbroken⟩ := hr.wellFormed
  obtain ⟨s1, h1, hw1, hst1, -, ⟨m1, hm1, hb1, ha1, -⟩, -⟩ :=
    App.newWorkout_valid s ev m xs date now hev hmap hws hv
  have hno : ¬ ((m.broken && m.autoPanResets) = true) := by simp [hok]
  rw [if_neg hno] at h1 hst1
  have hok1 : (m1.broken && m1.autoPanResets) = false := by rw [hb1, ha1]; exact hok
  obtain ⟨hw2, -, h3⟩ := Submission.run_valid subs s1 m1 _ hm1 hw1 hsubs
  obtain ⟨s2, hr2, hs2⟩ := h3 hok1
  rw [hr2] at hw2
  refine ⟨xs, s1, s2, hws, h1, hw1, hst1, hr2, hw2, ?_, ?_⟩
  · cases subs with
    | nil =>
      simp only [Submission.run] at hr2
      cases hr2
      exact hst1
    | cons y ys => exact hs2 (by simp)
  · split_ifs with hall
    · cases hb : m.broken
      · rfl
      · obtain ⟨xs', x, hxs', hx, hmiss⟩ := hbroken m hmap hb
        rw [hws] at hxs'
        injection hxs' with hxs'
        subst hxs'
        have := List.all_eq_true.mp hall x hx
        simp [hmiss] at this

theorem newWorkout_persists_collection_witness :
    ∃ s1 s2, App._newWorkout
        (Submission.fill (App._showForm Sample.ready Sample.click) Sample.runSub)
        Sample.date 1793827200123 = .done s1 ∧
      s1.storage = some (JSON.stringify s1.workouts) ∧
      Submission.run s1 [Sample.cycleSub] = .done s2 ∧
      s2.storage = some (JSON.stringify s2.workouts) := by
  obtain ⟨xs, s1, s2, -, h1, -, h3, h4, -, h6, -⟩ := newWorkout_persists_collection
    (Submission.fill (App._showForm Sample.ready Sample.click) Sample.runSub) Sample.click
    Sample.homeMap Sample.date 1793827200123 [Sample.cycleSub]
    ((Sample.ready_reachable.click Sample.click rfl).fill Sample.runSub) rfl rfl rfl
    ⟨⟨rfl, by decide!⟩, ⟨rfl, by decide!⟩, Or.inl ⟨rfl, rfl, by decide!⟩⟩
    (by
      intro sub hsub
      rw [List.mem_singleton] at hsub
      subst hsub
      exact ⟨⟨rfl, by decide!⟩, ⟨rfl, by decide!⟩, Or.inr ⟨rfl, rfl⟩⟩)
  exact ⟨s1, s2, h1, h3, h4, h6⟩

/-! ### Reading the storage at startup -/

/-- C10 (as stated, refuted): with unparseable text under the key the constructor's
`_getLocalStorage` ends with a `SyntaxError`, and with text that parses to a non-array (here the
empty object) it ends with a `TypeError` after having replaced the collection by that value. -/
theorem getLocalStorage_corrupt_throws :
    App.new (some (.malformed "not json"))
      = .threw .syntaxError (App.init (some (.malformed "not json"))) ∧
    App.new (some (.json (.obj [])))
      = .threw .typeError { App.init (some (.json (.obj []))) with workouts := .obj [] } :=
  ⟨rfl, rfl⟩

/-- C10 (amended): at startup, if the key is absent, or its text parses to a falsy value (`null`,
`false`, `0`, the empty string), `_getLocalStorage` returns normally with no list entry rendered
and the collection empty. Unparseable text makes it end with the `SyntaxError` of `JSON.parse`,
nothing rendered and the collection empty; text that parses to a truthy value that is not an
array makes it end with a `TypeError`, nothing rendered, the collection replaced by that value. -/
theorem getLocalStorage_startup (storage : Option StoredText) :
    match storage with
    | none => App.new storage = .done (App.init storage)
    | some (.malformed _) => App.new storage = .threw .syntaxError (App.init storage)
    | some (.json v) =>
      match v.truthy, v with
      | false, _ => App.new storage = .done (App.init storage)
      | true, .arr _ => True
      | true, v => App.new storage = .threw .typeError { App.init storage with workouts := v } := by
  match storage with
  | none => rfl
  | some (.malformed _) => rfl
  | some (.json v) =>
    cases h : v.truthy
    · simp [App.new, App._getLocalStorage, App.init, h]
    · cases v <;> simp_all [App.new, App._getLocalStorage, App.init]

/-! ### Selecting a list entry -/

theorem App.find_eq (id : String) (xs : List JSVal) (hobj : ∀ x ∈ xs, ∃ props, x = .obj props) :
    App.find id xs = .ok ((xs.find? (Spec.hasId id)).getD .undefined) := by
  induction xs with
  | nil => rfl
  | cons x rest ih =>
    obtain ⟨props, rfl⟩ := hobj _ (List.mem_cons_self _ _)
    have ih' := ih (fun y hy => hobj y (List.mem_cons_of_mem _ hy))
    cases h : Spec.hasId id (.obj props)
    · have h' : ((JSVal.obj props).get "id").isStr id = false := h
      simp [App.find, App.idMatches, JSVal.prop, h', ih', List.find?, h]
    · have h' : ((JSVal.obj props).get "id").isStr id = true := h
      simp [App.find, App.idMatches, JSVal.prop, h', List.find?, h]

theorem Leaflet.obj_of_usable {x : JSVal} (h : Leaflet.toLatLng (x.get "coords") = .usable) :
    ∃ props, x = .obj props := by
  cases x with
  | obj props => exact ⟨props, rfl⟩
  | _ => simp [JSVal.get, Leaflet.toLatLng] at h

theorem Sample.reloaded_reachable : Reachable Sample.reloaded :=
  Reachable.start (some (.json (.arr [Sample.storedRun]))) Sample.reloaded rfl

/-- C4 (as stated, refuted): after a page reload with one stored workout, its list entry (id
3827200123) is rendered before the map has loaded. A click on that entry makes `_moveToPopup`
throw a `TypeError` (it reads `setView` of `undefined`) although the collection holds a workout
with that id: the map is not re-centred. -/
theorem moveToPopup_before_map_throws :
    Reachable Sample.reloaded ∧
    Sample.reloaded.workouts = .arr [Sample.storedRun] ∧
    Sample.reloaded.list.map (fun e => e.id) = [.str "3827200123"] ∧
    Sample.storedRun.get "id" = .str "3827200123" ∧
    Sample.reloaded.map = none ∧
    App._moveToPopup Sample.reloaded (some "3827200123")
      = .threw .typeError Sample.reloaded :=
  ⟨Sample.reloaded_reachable, rfl, rfl, rfl, rfl, rfl⟩

/-- C4 (amended): in every reachable state whose map has loaded and whose collection holds only
records with usable coords (as every record written by the app has), for every id carried by a
clicked list entry: if some workout has that id, `_moveToPopup` returns with the map centred on
the stored coords of the first such workout at the controller's zoom level and with nothing
else changed; if no workout has that id, it leaves the collection, the map view and the rest of
the state unchanged, and ends with a `TypeError` (it reads `coords` of `undefined`). -/
theorem moveToPopup_recentres (s : State) (m : LeafletMap) (xs : List JSVal) (id : String)
    (hr : Reachable s) (hmap : s.map = some m) (hws : s.workouts = .arr xs)
    (hrec : ∀ x ∈ xs, Leaflet.toLatLng (x.get "coords") = .usable) :
    match xs.find? (Spec.hasId id) with
    | some w => w ∈ xs ∧ (w.get "id") = .str id ∧ App._moveToPopup s (some id) = .done
        { s with map := some { m with center := w.get "coords", zoom := s.mapZoomLevel } }
    | none => App._moveToPopup s (some id) = .threw .typeError s := by
  have hobj : ∀ x ∈ xs, ∃ props, x = .obj props := fun x hx => Leaflet.obj_of_usable (hrec x hx)
  have hfind := App.find_eq id xs hobj
  have hnb : m.broken = false := by
    cases hb : m.broken
    · rfl
    · obtain ⟨xs', x, hxs', hx, hmiss⟩ := hr.wellFormed.2.2 m hmap hb
      rw [hws] at hxs'
      injection hxs' with hxs'
      subst hxs'
      rw [hrec x hx] at hmiss
      cases hmiss
  cases h : xs.find? (Spec.hasId id) with
  | none =>
    simp [App._moveToPopup, hws, hfind, h, hmap, JSVal.prop]
  | some w =>
    have hmem : w ∈ xs := List.mem_of_find?_eq_some h
    have hid : Spec.hasId id w = true := List.find?_some h
    have hpos := hrec w hmem
    obtain ⟨props, rfl⟩ := hobj w hmem
    refine ⟨hmem, ?_, ?_⟩
    · revert hid
      simp only [Spec.hasId, JSVal.isStr]
      cases (JSVal.obj props).get "id" <;> simp
    · simp [App._moveToPopup, hws, hfind, h, hmap, JSVal.prop, hpos, hnb]

theorem moveToPopup_recentres_witness :
    App._moveToPopup Sample.reloadedMap (some "3827200123") = .done
      { Sample.reloadedMap with
        map := some ⟨.arr [.num (.fin 40), .num (.fin (-75))], 13,
          [⟨.arr [.num (.fin 40), .num (.fin (-75))], .str "running", true,
            .str "Running on November 4"⟩], false, false, false⟩ } :=
  (moveToPopup_recentres Sample.reloadedMap
    ⟨.arr [.num (.fin 39), .num (.fin (-74))], 13,
      [⟨.arr [.num (.fin 40), .num (.fin (-75))], .str "running", true,
        .str "Running on November 4"⟩], false, false, false⟩
    [Sample.storedRun] "3827200123" (Sample.reloaded_reachable.loadMap (.fin 39) (.fin (-74)))
    rfl rfl
    (by
      intro x hx
      rw [List.mem_singleton] at hx
      subst hx
      rfl)).2.2

/-! ### Persisting and rehydrating -/

theorem JSNum.ne_negZero_of_gtZero {a : JSNum} (h : a.gtZero = true) : a ≠ .negZero := by
  rintro rfl
  simp [JSNum.gtZero] at h

theorem JSNum.pow2_pos (e : Int) : 0 < JSNum.pow2 e := by
  unfold JSNum.pow2
  split <;> positivity

theorem JSNum.roundHalfEven_nonneg {n : ℚ} (hn : 0 ≤ n) : 0 ≤ JSNum.roundHalfEven n := by
  have hf : (0 : Int) ≤ n.floor := by
    show (0 : Int) ≤ ⌊n⌋
    exact Int.floor_nonneg.mpr hn
  unfold JSNum.roundHalfEven
  simp only
  split_ifs <;> omega

theorem JSNum.roundPos_nonneg {q v : ℚ} (hq : 0 ≤ q) (h : JSNum.roundPos q = some v) :
    0 ≤ v := by
  unfold JSNum.roundPos at h
  simp only at h
  split_ifs at h
  injection h with h
  subst h
  have hu := JSNum.pow2_pos (max (JSNum.floorLog2 q.num.toNat q.den) (-1022) - 52)
  have hr := JSNum.roundHalfEven_nonneg (div_nonneg hq hu.le)
  exact mul_nonneg (by exact_mod_cast hr) hu.le

theorem JSNum.ofMag_neg {q : ℚ} (hq : 0 ≤ q) : (JSNum.ofMag false q).neg = false := by
  unfold JSNum.ofMag
  cases h : JSNum.roundPos q with
  | none => rfl
  | some v =>
    have hv := JSNum.roundPos_nonneg hq h
    by_cases h0 : v = 0
    · simp [h0, JSNum.zero, JSNum.neg]
    · simp [h0, JSNum.neg, hv]

theorem JSNum.div_neg {a b : JSNum} (ha : a.neg = false) (hb : b.neg = false) :
    (a.div b).neg = false := by
  have hq : 0 ≤ a.mag / b.mag := by
    apply div_nonneg <;> (unfold JSNum.mag; split <;> simp)
  have hm := JSNum.ofMag_neg hq
  have hs : xor a.neg b.neg = false := by rw [ha, hb]; rfl
  cases a <;> cases b <;> try (simp [JSNum.neg] at ha hb)
  all_goals try (simp [JSNum.div, JSNum.neg, JSNum.isInf, JSNum.isZero, JSNum.inf, JSNum.zero]; done)
  all_goals
    simp only [JSNum.div, hs, JSNum.isInf, JSNum.isZero, JSNum.inf, JSNum.zero]
    split_ifs <;> first | rfl | exact hm

theorem JSVal.serialize_num (n : JSNum) :
    (JSVal.num n).serialize = some (if n.isFinite then .num (Spec.plusZero n) else .null) := by
  cases n <;> simp [JSVal.serialize, Spec.plusZero, JSNum.isFinite]

theorem Spec.plusZero_of_neg {n : JSNum} (h : n.neg = false) : Spec.plusZero n = n := by
  cases n <;> simp_all [Spec.plusZero, JSNum.neg]

theorem App.renderWorkout_workouts (s : State) (w : JSVal) :
    (App._renderWorkout s w).state.workouts = s.workouts := by
  unfold App._renderWorkout
  split
  · rfl
  · simp only
    split_ifs <;> (try split) <;> rfl

theorem App.forEach_renderWorkout_workouts (xs : List JSVal) :
    ∀ s : State, (App.forEach App._renderWorkout s xs).state.workouts = s.workouts := by
  induction xs with
  | nil => intro s; rfl
  | cons x rest ih =>
    intro s
    have h := App.renderWorkout_workouts s x
    unfold App.forEach
    cases hx : App._renderWorkout s x with
    | done s1 =>
      rw [hx] at h
      simp only [ih s1]
      exact h
    | threw e s1 =>
      rw [hx] at h
      exact h

theorem App.rehydrate_workouts (s : State) (ws : List JSVal) (hws : s.workouts = .arr ws) :
    (App.rehydrate s).state.workouts = .arr (ws.map JSVal.stored) := by
  simp only [App.rehydrate, App._setLocalStorage, hws, JSON.stringify, JSVal.serialize,
    App.new, App._getLocalStorage, App.init, JSVal.truthy, serializeItems_eq_map]
  simp only [Bool.not_true, Bool.false_eq_true, if_false]
  rw [App.forEach_renderWorkout_workouts]

theorem Spec.plusZero_idem (n : JSNum) : Spec.plusZero (Spec.plusZero n) = Spec.plusZero n := by
  cases n <;> rfl

theorem Spec.plusZero_isFinite (n : JSNum) : (Spec.plusZero n).isFinite = n.isFinite := by
  cases n <;> rfl

theorem JSVal.serialize_finite {n : JSNum} (h : n.isFinite = true) :
    (JSVal.num n).serialize = some (.num (Spec.plusZero n)) := by
  rw [JSVal.serialize_num, h]
  rfl

theorem JSVal.serialize_pos {n : JSNum} (h1 : n.isFinite = true) (h2 : n.gtZero = true) :
    (JSVal.num n).serialize = some (.num n) := by
  rw [JSVal.serialize_finite h1, Spec.plusZero_of_neg (JSNum.neg_of_gtZero h2)]

theorem JSVal.serialize_metric {p : JSNum} (hp : p.neg = false) :
    (if p.isFinite then JSVal.num p else JSVal.null).serialize
      = some (if p.isFinite then .num p else .null) := by
  cases h : p.isFinite
  · simp [JSVal.serialize]
  · simp only [if_true]
    rw [JSVal.serialize_finite h, Spec.plusZero_of_neg hp]

theorem JSVal.serialize_coords {lat lng : JSNum} (hlat : lat.isFinite = true)
    (hlng : lng.isFinite = true) :
    (JSVal.arr [.num lat, .num lng]).serialize
      = some (.arr [.num (Spec.plusZero lat), .num (Spec.plusZero lng)]) := by
  rw [JSVal.serialize, serializeItems, serializeItems, serializeItems,
    JSVal.serialize_finite hlat, JSVal.serialize_finite hlng]
  rfl

theorem JSVal.serialize_str (x : String) : (JSVal.str x).serialize = some (.str x) := by
  rw [JSVal.serialize]

theorem JSVal.serialize_date (x : JSDate) : (JSVal.date x).serialize = some (.str x.iso) := by
  rw [JSVal.serialize]

theorem Running_stored (date : JSDate) (now : Nat) (lat lng d t c : JSNum)
    (hlat : lat.isFinite = true) (hlng : lng.isFinite = true)
    (hd1 : d.isFinite = true) (hd2 : d.gtZero = true) (ht1 : t.isFinite = true)
    (ht2 : t.gtZero = true) (hc1 : c.isFinite = true) (hc2 : c.gtZero = true) :
    (Running date now (.arr [.num lat, .num lng]) d t c).stored
      = Spec.runningRecord date now lat lng d t c ∧
    (Spec.runningRecord date now lat lng d t c).stored
      = Spec.runningRecord date now lat lng d t c := by
  have hp : (t.div d).neg = false :=
    JSNum.div_neg (JSNum.neg_of_gtZero ht2) (JSNum.neg_of_gtZero hd2)
  have e6 : (JSVal.num (t.div d)).serialize
      = some (if (t.div d).isFinite then .num (t.div d) else .null) := by
    rw [JSVal.serialize_num, Spec.plusZero_of_neg hp]
  have e7 := @JSVal.serialize_coords (Spec.plusZero lat) (Spec.plusZero lng)
    (by rw [Spec.plusZero_isFinite, hlat]) (by rw [Spec.plusZero_isFinite, hlng])
  rw [Spec.plusZero_idem, Spec.plusZero_idem] at e7
  constructor
  · unfold Running JSVal.stored Running.calcPace Spec.runningRecord
    rw [JSVal.serialize]
    simp only [serializeProps, JSVal.serialize_coords hlat hlng, JSVal.serialize_pos hd1 hd2,
      JSVal.serialize_pos ht1 ht2, JSVal.serialize_pos hc1 hc2, e6, JSVal.serialize_str,
      JSVal.serialize_date, Option.getD]
  · unfold JSVal.stored Spec.runningRecord
    rw [JSVal.serialize]
    simp only [serializeProps, e7, JSVal.serialize_pos hd1 hd2,
      JSVal.serialize_pos ht1 ht2, JSVal.serialize_pos hc1 hc2, JSVal.serialize_metric hp,
      JSVal.serialize_str, Option.getD]

theorem Cycling_stored (date : JSDate) (now : Nat) (lat lng d t e : JSNum)
    (hlat : lat.isFinite = true) (hlng : lng.isFinite = true)
    (hd1 : d.isFinite = true) (hd2 : d.gtZero = true) (ht1 : t.isFinite = true)
    (ht2 : t.gtZero = true) (he : e.isFinite = true) :
    (Cycling date now (.arr [.num lat, .num lng]) d t e).stored
      = Spec.cyclingRecord date now lat lng d t e ∧
    (Spec.cyclingRecord date now lat lng d t e).stored
      = Spec.cyclingRecord date now lat lng d t e := by
  have h60 : (JSNum.fin 60).neg = false := by simp [JSNum.neg]
  have hp : (Cycling.calcSpeed d t).neg = false :=
    JSNum.div_neg (JSNum.neg_of_gtZero hd2) (JSNum.div_neg (JSNum.neg_of_gtZero ht2) h60)
  have e6 : (JSVal.num (Cycling.calcSpeed d t)).serialize
      = some (if (Cycling.calcSpeed d t).isFinite then .num (Cycling.calcSpeed d t)
          else .null) := by
    rw [JSVal.serialize_num, Spec.plusZero_of_neg hp]
  have e7 := @JSVal.serialize_coords (Spec.plusZero lat) (Spec.plusZero lng)
    (by rw [Spec.plusZero_isFinite, hlat]) (by rw [Spec.plusZero_isFinite, hlng])
  rw [Spec.plusZero_idem, Spec.plusZero_idem] at e7
  have e8 := @JSVal.serialize_finite (Spec.plusZero e)
    (by rw [Spec.plusZero_isFinite, he])
  rw [Spec.plusZero_idem] at e8
  constructor
  · unfold Cycling JSVal.stored Spec.cyclingRecord
    rw [JSVal.serialize]
    simp only [serializeProps, JSVal.serialize_coords hlat hlng, JSVal.serialize_pos hd1 hd2,
      JSVal.serialize_pos ht1 ht2, JSVal.serialize_finite he, e6, JSVal.serialize_str,
      JSVal.serialize_date, Option.getD]
  · unfold JSVal.stored Spec.cyclingRecord
    rw [JSVal.serialize]
    simp only [serializeProps, e7, e8, JSVal.serialize_pos hd1 hd2,
      JSVal.serialize_pos ht1 ht2, JSVal.serialize_metric hp,
      JSVal.serialize_str, Option.getD]

theorem App.rehydrate_eq (s : State) (ws : List JSVal) (hws : s.workouts = .arr ws) :
    App.rehydrate s = App.forEach App._renderWorkout
      { App.init (some (.json (.arr (ws.map JSVal.stored)))) with
        workouts := .arr (ws.map JSVal.stored) } (ws.map JSVal.stored) := by
  simp only [App.rehydrate, App._setLocalStorage, hws, JSON.stringify, JSVal.serialize,
    App.new, App._getLocalStorage, App.init, JSVal.truthy, serializeItems_eq_map]
  simp only [Bool.not_true, Bool.false_eq_true, if_false]

theorem App.forEach_stored (C : List JSVal)
    (h : ∀ w ∈ C, ∀ s : State,
      if Spec.finiteMetric w = true then
        ∃ e, App._renderWorkout s w.stored = .done { s with list := e :: s.list }
      else App._renderWorkout s w.stored = .threw .typeError s) :
    ∀ s : State,
      if C.all Spec.finiteMetric = true then
        ∃ s', App.forEach App._renderWorkout s (C.map JSVal.stored) = .done s' ∧
          s'.list.length = s.list.length + C.length
      else ∃ s', App.forEach App._renderWorkout s (C.map JSVal.stored) = .threw .typeError s' := by
  induction C with
  | nil =>
    intro s
    exact ⟨s, rfl, rfl⟩
  | cons w rest ih =>
    intro s
    have hw := h w (List.mem_cons_self _ _) s
    have ih1 := ih (fun x hx => h x (List.mem_cons_of_mem _ hx))
    simp only [List.all_cons, List.map_cons, App.forEach, Bool.and_eq_true]
    cases hf : Spec.finiteMetric w
    · rw [hf] at hw
      simp only [Bool.false_eq_true, if_false, false_and] at hw ⊢
      rw [hw]
      exact ⟨s, rfl⟩
    · rw [hf] at hw
      simp only [if_true, true_and] at hw ⊢
      obtain ⟨e, he⟩ := hw
      rw [he]
      have ih2 := ih1 { s with list := e :: s.list }
      split_ifs at ih2 ⊢
      · obtain ⟨s', h1, h2⟩ := ih2
        refine ⟨s', h1, ?_⟩
        rw [h2]
        simp only [List.length_cons]
        omega
      · exact ih2

theorem Submission.entry_stored (sub : Submission) (hv : sub.valid)
    (hlat : sub.click.lat.isFinite = true) (hlng : sub.click.lng.isFinite = true)
    (w : JSVal) (hw : w = sub.workout ∨ w = sub.workout.stored) :
    w.stored = sub.workout.stored ∧ Spec.readBack w w.stored ∧
    ∀ s : State,
      if Spec.finiteMetric w = true then
        ∃ e, App._renderWorkout s w.stored = .done { s with list := e :: s.list }
      else App._renderWorkout s w.stored = .threw .typeError s := by
  obtain ⟨⟨hd1, hd2⟩, ⟨ht1, ht2⟩, hk⟩ := hv
  rcases hk with ⟨hty, hc1, hc2⟩ | ⟨hty, he⟩
  · have hb : sub.workout = Running sub.date sub.now
        (.arr [.num sub.click.lat, .num sub.click.lng]) sub.distance.number
        sub.duration.number sub.cadence.number := by
      simp [Submission.workout, App.built, hty]
    obtain ⟨h1, h2⟩ := Running_stored sub.date sub.now _ _ _ _ _ hlat hlng hd1 hd2 ht1 ht2
      hc1 hc2
    rw [hb, h1] at hw
    rw [hb, h1]
    rcases hw with rfl | rfl
    · rw [h1]
      refine ⟨rfl, ⟨rfl, rfl, rfl, rfl, rfl, rfl, ⟨_, _, rfl, rfl⟩, rfl, rfl, rfl, rfl⟩, ?_⟩
      intro s
      cases hp : (sub.duration.number.div sub.distance.number).isFinite <;>
        simp [Spec.finiteMetric, Running, Running.calcPace, Spec.runningRecord, JSVal.get,
          List.lookup, App._renderWorkout, JSVal.prop, JSVal.isStr, App.toFixedArg, hp]
    · rw [h2]
      refine ⟨rfl, ?_, ?_⟩
      · cases hp : (sub.duration.number.div sub.distance.number).isFinite <;>
          (simp [Spec.readBack, Spec.runningRecord, JSVal.get, List.lookup, hp,
            Spec.plusZero_idem]
           exact ⟨_, _, ⟨rfl, rfl⟩, (Spec.plusZero_idem _).symm, (Spec.plusZero_idem _).symm⟩)
      · intro s
        cases hp : (sub.duration.number.div sub.distance.number).isFinite <;>
          simp [Spec.finiteMetric, Spec.runningRecord, JSVal.get,
            List.lookup, App._renderWorkout, JSVal.prop, JSVal.isStr, App.toFixedArg, hp]
  · have hne : sub.type ≠ "running" := by rw [hty]; decide
    have hb : sub.workout = Cycling sub.date sub.now
        (.arr [.num sub.click.lat, .num sub.click.lng]) sub.distance.number
        sub.duration.number sub.elevation.number := by
      simp [Submission.workout, App.built, hty]
    obtain ⟨h1, h2⟩ := Cycling_stored sub.date sub.now _ _ _ _ _ hlat hlng hd1 hd2 ht1 ht2 he
    rw [hb, h1] at hw
    rw [hb, h1]
    rcases hw with rfl | rfl
    · rw [h1]
      refine ⟨rfl, ⟨rfl, rfl, rfl, rfl, rfl, rfl, ⟨_, _, rfl, rfl⟩, rfl, rfl, rfl, rfl⟩, ?_⟩
      intro s
      cases hp : (Cycling.calcSpeed sub.distance.number sub.duration.number).isFinite <;>
        simp [Spec.finiteMetric, Cycling, Spec.cyclingRecord, JSVal.get,
          List.lookup, App._renderWorkout, JSVal.prop, JSVal.isStr, App.toFixedArg, hp]
    · rw [h2]
      refine ⟨rfl, ?_, ?_⟩
      · cases hp : (Cycling.calcSpeed sub.distance.number sub.duration.number).isFinite <;>
          (simp [Spec.readBack, Spec.cyclingRecord, JSVal.get, List.lookup, hp,
            Spec.plusZero_idem]
           exact ⟨_, _, ⟨rfl, rfl⟩, (Spec.plusZero_idem _).symm, (Spec.plusZero_idem _).symm⟩)
      · intro s
        cases hp : (Cycling.calcSpeed sub.distance.number sub.duration.number).isFinite <;>
          simp [Spec.finiteMetric, Spec.cyclingRecord, JSVal.get,
            List.lookup, App._renderWorkout, JSVal.prop, JSVal.isStr, App.toFixedArg, hp]

theorem Sample.runSub_valid : Sample.runSub.valid :=
  ⟨⟨rfl, by decide!⟩, ⟨rfl, by decide!⟩, Or.inl ⟨rfl, rfl, by decide!⟩⟩

theorem Sample.cycleSub_valid : Sample.cycleSub.valid :=
  ⟨⟨rfl, by decide!⟩, ⟨rfl, by decide!⟩, Or.inr ⟨rfl, rfl⟩⟩

theorem Sample.storedRun_eq : Sample.storedRun = Sample.runSub.workout.stored := by
  have hb : Sample.runSub.workout = Running Sample.date 1793827200123
      (.arr [.num (.fin 40), .num (.fin (-75))]) (.fin 5) (.fin 30) (.fin 178) := rfl
  have hp : (JSNum.fin 30).div (.fin 5) = .fin 6 := by decide!
  rw [hb, (Running_stored Sample.date 1793827200123 (.fin 40) (.fin (-75)) (.fin 5) (.fin 30)
    (.fin 178) rfl rfl rfl (by decide!) rfl (by decide!) rfl (by decide!)).1]
  unfold Spec.runningRecord Sample.storedRun
  rw [hp]
  have hid : Workout.id 1793827200123 = "3827200123" := by decide
  have hdesc : Workout._setDescription .running Sample.date = "Running on November 4" := by
    simp only [Workout._setDescription]
    decide
  rw [hid, hdesc]
  rfl

/-- C3 (as stated, refuted): after `_setLocalStorage` and `_getLocalStorage` in a fresh
controller, the `date` of the rehydrated running workout is the string written by `toJSON()`,
while the `date` of the original is the `Date` object; the two are not equal. -/
theorem rehydrate_date_differs :
    (App.rehydrate Sample.withRun).state.workouts = .arr [Sample.runSub.workout.stored] ∧
    Sample.runSub.workout.stored.get "date" = .str "2026-11-04T21:20:00.123Z" ∧
    Sample.runSub.workout.get "date" = .date Sample.date ∧
    Sample.runSub.workout.stored.get "date" ≠ Sample.runSub.workout.get "date" := by
  refine ⟨App.rehydrate_workouts Sample.withRun _ rfl, rfl, rfl, ?_⟩
  intro h
  have h1 : Sample.runSub.workout.stored.get "date" = .str "2026-11-04T21:20:00.123Z" := rfl
  have h2 : Sample.runSub.workout.get "date" = .date Sample.date := rfl
  rw [h1, h2] at h
  cases h

/-- C3 (amended): let every entry of the collection `C` be a workout built by a successful
submission (at a map click with finite coordinates), either as the constructor built it or as
an earlier session read it back from storage. Then `_setLocalStorage` followed by the
construction of a fresh controller (which calls `_getLocalStorage`) leaves that controller with
a collection of the same length and order whose i-th entry is the i-th entry of `C` read back:
id, type, description, distance, duration and cadence equal, coords and elevation gain equal as
`===` compares numbers (a `-0` reads back as `0`), pace / speed equal when finite and `null`
when the quotient overflowed to `Infinity`, and the `date` of a freshly built workout read back
as the string that `toJSON()` wrote, not as its `Date` object. Reading an entry back a second
time changes nothing. The constructor returns, with one list entry rendered per workout, when
every pace and speed of `C` is finite; otherwise it throws a `TypeError` (at `toFixed` of
`null`), the collection being already in place. -/
theorem persist_rehydrate (s : State) (C : List JSVal)
    (hws : s.workouts = .arr C)
    (hC : ∀ w ∈ C, ∃ sub : Submission, sub.valid ∧ sub.click.lat.isFinite = true ∧
      sub.click.lng.isFinite = true ∧ (w = sub.workout ∨ w = sub.workout.stored)) :
    (App.rehydrate s).state.workouts = .arr (C.map JSVal.stored) ∧
    (C.map JSVal.stored).length = C.length ∧
    (if C.all Spec.finiteMetric = true then
      ∃ s', App.rehydrate s = .done s' ∧ s'.list.length = C.length
    else ∃ s', App.rehydrate s = .threw .typeError s') ∧
    (∀ i : Fin C.length, Spec.readBack (C.get i) (C.get i).stored) ∧
    ∀ i : Fin C.length, (C.get i).stored.stored = (C.get i).stored := by
  refine ⟨App.rehydrate_workouts s C hws, by simp, ?_, ?_, ?_⟩
  · rw [App.rehydrate_eq s C hws]
    have h := App.forEach_stored C
      (fun w hw => by
        obtain ⟨sub, hv, hlat, hlng, hsub⟩ := hC w hw
        exact (Submission.entry_stored sub hv hlat hlng w hsub).2.2)
      { App.init (some (.json (.arr (C.map JSVal.stored)))) with
        workouts := .arr (C.map JSVal.stored) }
    split_ifs at h ⊢
    · obtain ⟨s', h1, h2⟩ := h
      refine ⟨s', h1, ?_⟩
      rw [h2]
      simp [App.init]
    · exact h
  · intro i
    obtain ⟨sub, hv, hlat, hlng, hsub⟩ := hC (C.get i) (List.get_mem _ _ _)
    exact (Submission.entry_stored sub hv hlat hlng _ hsub).2.1
  · intro i
    obtain ⟨sub, hv, hlat, hlng, hsub⟩ := hC (C.get i) (List.get_mem _ _ _)
    rw [(Submission.entry_stored sub hv hlat hlng _ hsub).1]
    exact (Submission.entry_stored sub hv hlat hlng _ (Or.inr rfl)).1

theorem persist_rehydrate_witness :
    (App.rehydrate Sample.laterSession).state.workouts
      = .arr [Sample.storedRun.stored, Sample.cycleSub.workout.stored] ∧
    (∃ s', App.rehydrate Sample.laterSession = .done s' ∧ s'.list.length = 2) ∧
    Sample.storedRun.stored.get "description" = .str "Running on November 4" ∧
    Sample.cycleSub.workout.stored.get "id" = .str "3827200123" := by
  have h := persist_rehydrate Sample.laterSession [Sample.storedRun, Sample.cycleSub.workout]
    rfl
    (by
      intro w hw
      simp only [List.mem_cons, List.mem_singleton, List.not_mem_nil, or_false] at hw
      rcases hw with rfl | rfl
      · exact ⟨Sample.runSub, Sample.runSub_valid, rfl, rfl, Or.inr Sample.storedRun_eq⟩
      · exact ⟨Sample.cycleSub, Sample.cycleSub_valid, rfl, rfl, Or.inl rfl⟩)
  have hfin : [Sample.storedRun, Sample.cycleSub.workout].all Spec.finiteMetric = true := by
    decide!
  have h0 := (h.2.2.2.1 ⟨0, by decide⟩).2.2.1
  have h1 := (h.2.2.2.1 ⟨1, by decide⟩).1
  have hdone := h.2.2.1
  rw [if_pos hfin] at hdone
  exact ⟨h.1, hdone, h0.trans rfl, h1.trans rfl⟩

/-! ### Identifiers -/

theorem Workout.toDigitsCore_eq (fuel : Nat) :
    ∀ (n : Nat) (ds : List Char), n < fuel →
      Nat.toDigitsCore 10 fuel n ds
        = ((n % 10 :: Nat.digits 10 (n / 10)).reverse.map Nat.digitChar) ++ ds := by
  induction fuel with
  | zero => intro n ds h; omega
  | succ fuel ih =>
    intro n ds h
    unfold Nat.toDigitsCore
    simp only
    by_cases h0 : n / 10 = 0
    · simp [h0]
    · have hpos : 0 < n / 10 := Nat.pos_of_ne_zero h0
      have hlt : n / 10 < fuel := by omega
      rw [if_neg h0, ih (n / 10) _ hlt, ← Nat.digits_def' (by norm_num) hpos]
      simp

theorem Workout.ofDigits_take (k : Nat) :
    ∀ m : Nat, Nat.ofDigits 10 ((Nat.digits 10 m).take k) = m % 10 ^ k := by
  induction k with
  | zero => intro m; simp [Nat.ofDigits, Nat.mod_one]
  | succ k ih =>
    intro m
    rcases Nat.eq_zero_or_pos m with rfl | hm
    · simp [Nat.ofDigits]
    · rw [Nat.digits_def' (by norm_num) hm, List.take_succ_cons, Nat.ofDigits_cons, ih,
        pow_succ', Nat.mod_mul]

theorem Workout.digitChar_inj {a b : Nat} (ha : a < 10) (hb : b < 10)
    (h : Nat.digitChar a = Nat.digitChar b) : a = b := by
  interval_cases a <;> interval_cases b <;> first | rfl | (revert h; decide)

theorem Workout.map_digitChar_inj :
    ∀ (l1 l2 : List Nat), (∀ x ∈ l1, x < 10) → (∀ x ∈ l2, x < 10) →
      l1.map Nat.digitChar = l2.map Nat.digitChar → l1 = l2
  | [], [], _, _, _ => rfl
  | [], _ :: _, _, _, h => by simp at h
  | _ :: _, [], _, _, h => by simp at h
  | a :: l1, b :: l2, h1, h2, h => by
    simp only [List.map_cons, List.cons.injEq] at h
    have hab := Workout.digitChar_inj (h1 a (List.mem_cons_self _ _))
      (h2 b (List.mem_cons_self _ _)) h.1
    have := Workout.map_digitChar_inj l1 l2 (fun x hx => h1 x (List.mem_cons_of_mem _ hx))
      (fun x hx => h2 x (List.mem_cons_of_mem _ hx)) h.2
    rw [hab, this]

theorem Workout.id_data (n : Nat) :
    (Workout.id n).data
      = (((n % 10 :: Nat.digits 10 (n / 10)).take 10).reverse).map Nat.digitChar := by
  have h := Workout.toDigitsCore_eq (n + 1) n [] (Nat.lt_succ_self n)
  simp only [Workout.id, sliceLast, numberToString, Nat.repr, Nat.toDigits, List.asString, h,
    List.append_nil, List.length_map, List.length_reverse, ← List.map_drop, List.reverse_take]

theorem Workout.id_eq_imp_mod {a b : Nat} (h : Workout.id a = Workout.id b) :
    a % 10 ^ 10 = b % 10 ^ 10 := by
  have hd : (Workout.id a).data = (Workout.id b).data := by rw [h]
  rw [Workout.id_data, Workout.id_data] at hd
  have hmem : ∀ n : Nat, ∀ x ∈ ((n % 10 :: Nat.digits 10 (n / 10)).take 10).reverse, x < 10 := by
    intro n x hx
    rw [List.mem_reverse] at hx
    have hx' := List.mem_of_mem_take hx
    rcases List.mem_cons.mp hx' with rfl | hx''
    · exact Nat.mod_lt _ (by norm_num)
    · exact Nat.digits_lt_base (by norm_num) hx''
  have hl := Workout.map_digitChar_inj _ _ (hmem a) (hmem b) hd
  have hl' := List.reverse_injective hl
  have key : ∀ n : Nat,
      Nat.ofDigits 10 ((n % 10 :: Nat.digits 10 (n / 10)).take 10) = n % 10 ^ 10 := by
    intro n
    have h10 : (10 : Nat) ^ 10 = 10 * 10 ^ 9 := by norm_num
    rw [List.take_succ_cons, Nat.ofDigits_cons, Workout.ofDigits_take, h10, Nat.mod_mul]
  rw [← key a, ← key b, hl']

theorem Submission.workout_id (sub : Submission) :
    sub.workout.get "id" = .str (Workout.id sub.now) := by
  unfold Submission.workout App.built
  split <;> rfl

theorem Submission.run_outcome (subs : List Submission) (s : State) (m : LeafletMap)
    (xs : List JSVal) (hmap : s.map = some m) (hws : s.workouts = .arr xs)
    (hv : ∀ sub ∈ subs, sub.valid) :
    Submission.run s subs
      = (if (m.broken && m.autoPanResets && !subs.isEmpty) = true then
          .threw .typeError (Submission.run s subs).state
        else .done (Submission.run s subs).state) := by
  cases hbr : (m.broken && m.autoPanResets)
  · obtain ⟨s', h1, -⟩ := (Submission.run_valid subs s m xs hmap hws hv).2.2 hbr
    rw [h1]
    rfl
  · cases subs with
    | nil => rfl
    | cons sub rest =>
      obtain ⟨s1, h1, -⟩ :=
        App.newWorkout_valid (Submission.fill (App._showForm s sub.click) sub) sub.click m xs
          sub.date sub.now rfl hmap hws (hv sub (List.mem_cons_self _ _))
      rw [if_pos hbr] at h1
      simp only [Submission.run, Submission.submit, h1]
      rfl

/-- C8 (as stated, refuted): two successful submissions in one session whose clock readings are
1700000000000 and 1710000000000 (10^10 ms apart) produce two entries of the collection with the
same id, `0000000000`. -/
theorem ids_collide :
    ∃ s', Submission.run Sample.ready [Sample.earlySub, Sample.lateSub] = .done s' ∧
      s'.workouts = .arr [Sample.earlySub.workout, Sample.lateSub.workout] ∧
      Sample.earlySub.workout.get "id" = .str "0000000000" ∧
      Sample.lateSub.workout.get "id" = .str "0000000000" := by
  have hv : ∀ sub ∈ [Sample.earlySub, Sample.lateSub], sub.valid := by
    intro sub hsub
    simp only [List.mem_cons, List.mem_singleton, List.not_mem_nil, or_false] at hsub
    rcases hsub with rfl | rfl
    · exact ⟨⟨rfl, by decide!⟩, ⟨rfl, by decide!⟩, Or.inl ⟨rfl, rfl, by decide!⟩⟩
    · exact ⟨⟨rfl, by decide!⟩, ⟨rfl, by decide!⟩, Or.inr ⟨rfl, rfl⟩⟩
  have h := Submission.run_valid [Sample.earlySub, Sample.lateSub] Sample.ready
    Sample.homeMap [] rfl rfl hv
  obtain ⟨s', h1, -⟩ := h.2.2 rfl
  refine ⟨s', h1, ?_, rfl, rfl⟩
  have h2 := h.1
  rw [h1] at h2
  exact h2

/-- C8 (amended): let the map be loaded and the collection hold entries whose ids are the last
10 characters of the decimal millisecond timestamps `ts` (empty at the start of a first
session, rehydrated otherwise), and let a sequence of successful submissions follow. If the
clock readings of all entries, old and new, are pairwise incongruent modulo 10^10 ms (as are
distinct readings less than 10^10 ms, about 116 days, apart), then every entry's id is the last
10 characters of its decimal timestamp and any two distinct entries of the collection have
different ids. Every handler returns, unless the map holds a marker without a position and the
popup's auto-pan resets the view: then every handler throws a `TypeError` after having added
its workout, and the same holds of the collection. -/
theorem ids_distinct (s : State) (m : LeafletMap) (xs : List JSVal) (ts : List Nat)
    (subs : List Submission) (hmap : s.map = some m) (hws : s.workouts = .arr xs)
    (hids : xs.map (fun w => w.get "id") = ts.map (fun t => JSVal.str (Workout.id t)))
    (hv : ∀ sub ∈ subs, sub.valid)
    (hclock : (ts ++ subs.map (fun sub => sub.now)).Pairwise
      (fun a b => a % 10 ^ 10 ≠ b % 10 ^ 10)) :
    ∃ s' ys,
      Submission.run s subs
        = (if (m.broken && m.autoPanResets && !subs.isEmpty) = true then .threw .typeError s'
          else .done s') ∧
      s'.workouts = .arr ys ∧
      ys.map (fun w => w.get "id")
        = (ts ++ subs.map (fun sub => sub.now)).map
            (fun t => JSVal.str (sliceLast 10 (numberToString t))) ∧
      (ys.map (fun w => w.get "id")).Pairwise (fun a b => a ≠ b) := by
  have h2 := (Submission.run_valid subs s m xs hmap hws hv).1
  have hmap' : (xs ++ subs.map Submission.workout).map (fun w => w.get "id")
      = (ts ++ subs.map (fun sub => sub.now)).map (fun t => JSVal.str (Workout.id t)) := by
    rw [List.map_append, List.map_append, hids, List.map_map, List.map_map]
    congr 1
    apply List.map_congr_left
    intro sub _
    exact Submission.workout_id sub
  refine ⟨_, _, Submission.run_outcome subs s m xs hmap hws hv, h2, hmap', ?_⟩
  rw [hmap', List.pairwise_map]
  refine hclock.imp ?_
  intro a b hab h
  injection h with h
  exact hab (Workout.id_eq_imp_mod h)

theorem ids_distinct_witness :
    ∃ s' ys, Submission.run Sample.ready [Sample.earlySub, Sample.runSub] = .done s' ∧
      s'.workouts = .arr ys ∧
      ys.map (fun w => w.get "id") = [.str "0000000000", .str "3827200123"] := by
  obtain ⟨s', ys, h1, h2, h3, -⟩ := ids_distinct Sample.ready Sample.homeMap [] []
    [Sample.earlySub, Sample.runSub] rfl rfl rfl
    (by
      intro sub hsub
      simp only [List.mem_cons, List.mem_singleton, List.not_mem_nil, or_false] at hsub
      rcases hsub with rfl | rfl <;>
        exact ⟨⟨rfl, by decide!⟩, ⟨rfl, by decide!⟩, Or.inl ⟨rfl, rfl, by decide!⟩⟩)
    (by decide)
  exact ⟨s', ys, h1, h2, h3⟩

end Mapty
